import Mathlib

/-!
Verification of the UWallet ledger core (src/main.py, src/main1.py, src/main3.py).

Shallow embedding conventions:
* Python floats (SQLite REAL) are modelled as exact rationals `Rat`; the literal
  float tolerances `1e-12` that appear in the source are kept as the rational
  `1/10^12`.
* SQLite tables keyed by a primary key are modelled as association lists
  `List (Nat × β)`; `lookupA` is `SELECT ... WHERE id=?` (first match) and
  `updA` is `UPDATE ... WHERE id=?` on that row.  Opaque uuid/token strings are
  modelled as `Nat` keys; freshness of a generated uuid is modelled by guarding
  insertions on `lookupA _ = none`.
* The `users` table is modelled with insert-on-first-touch (`adjBal`): every
  bot handler calls `ensure_user` before touching money, so a balance row
  always exists for every participating user; reads of absent users are zero.
* `datetime` values are modelled as `Int` seconds; `timedelta(days=30)` is
  `2592000`.  A stored timestamp string is modelled as `Option Int`: `some t`
  when `datetime.fromisoformat` succeeds, `none` when it raises.
* `sha256` password hashes are modelled abstractly: a check row stores the
  expected hash as `Option Nat` and a claim supplies the hash of the typed
  password as `Option Nat`; the code only ever compares hashes for equality.
-/

namespace UWallet

/-- The float-noise tolerance `1e-12` used verbatim in the source. -/
def eps : Rat := 1 / 1000000000000

/-- One row of the `users` table: per-user UWT and RUB balances. -/
structure Acct where
  uwt : Rat
  rub : Rat
deriving DecidableEq, Repr

/-- `SELECT ... WHERE key=?` over an association list (first match). -/
def lookupA {β : Type} : List (Nat × β) → Nat → Option β
  | [], _ => none
  | (k, v) :: t, key => if k = key then some v else lookupA t key

/-- `UPDATE ... WHERE key=?`: rewrite the (first) row with the given key. -/
def updA {β : Type} (key : Nat) (f : β → β) : List (Nat × β) → List (Nat × β)
  | [] => []
  | (k, v) :: t => if k = key then (k, f v) :: t else (k, v) :: updA key f t

/-- Sum of a projection over all rows of a table. -/
def sumA {β : Type} (g : β → Rat) : List (Nat × β) → Rat
  | [] => 0
  | (_, v) :: t => g v + sumA g t

theorem updA_of_lookup_none {β : Type} (key : Nat) (f : β → β) :
    ∀ l : List (Nat × β), lookupA l key = none → updA key f l = l := by
  intro l h
  induction l with
  | nil => rfl
  | cons p t ih =>
    obtain ⟨k, v⟩ := p
    by_cases hk : k = key
    · simp [lookupA, hk] at h
    · simp [lookupA, hk] at h
      simp [updA, hk, ih h]

theorem sumA_updA {β : Type} (g : β → Rat) (key : Nat) (f : β → β) :
    ∀ (l : List (Nat × β)) (v : β), lookupA l key = some v →
      sumA g (updA key f l) = sumA g l + (g (f v) - g v) := by
  intro l
  induction l with
  | nil => intro v h; simp [lookupA] at h
  | cons p t ih =>
    intro v h
    obtain ⟨k, w⟩ := p
    by_cases hk : k = key
    · simp [lookupA, hk] at h
      simp [updA, hk, sumA, h]
      ring
    · simp [lookupA, hk] at h
      simp [updA, hk, sumA, ih v h]
      ring

theorem lookupA_updA_self {β : Type} (key : Nat) (f : β → β) :
    ∀ (l : List (Nat × β)) (v : β), lookupA l key = some v →
      lookupA (updA key f l) key = some (f v) := by
  intro l
  induction l with
  | nil => intro v h; simp [lookupA] at h
  | cons p t ih =>
    intro v h
    obtain ⟨k, w⟩ := p
    by_cases hk : k = key
    · simp [lookupA, hk] at h
      simp [updA, hk, lookupA, h]
    · simp [lookupA, hk] at h
      simp [updA, hk, lookupA, ih v h]

theorem lookupA_updA_ne {β : Type} (key k : Nat) (f : β → β) (hne : k ≠ key) :
    ∀ l : List (Nat × β), lookupA (updA key f l) k = lookupA l k := by
  intro l
  induction l with
  | nil => rfl
  | cons p t ih =>
    obtain ⟨k', w⟩ := p
    by_cases hk : k' = key
    · subst hk
      simp [updA, lookupA, Ne.symm hne]
    · simp [updA, hk, lookupA]
      by_cases hk2 : k' = k
      · simp [hk2]
      · simp [hk2, ih]

/-- Balance read: `get_balances`, with absent rows reading as zero. -/
def get_balances (l : List (Nat × Acct)) (uid : Nat) : Acct :=
  (lookupA l uid).getD ⟨0, 0⟩

def uwtOf (l : List (Nat × Acct)) (uid : Nat) : Rat := (get_balances l uid).uwt

def rubOf (l : List (Nat × Acct)) (uid : Nat) : Rat := (get_balances l uid).rub

/-- Mutate one user's balance row, creating a zero row on first touch
(`ensure_user` guarantees the row exists before any money movement). -/
def adjBal (l : List (Nat × Acct)) (uid : Nat) (f : Acct → Acct) :
    List (Nat × Acct) :=
  match lookupA l uid with
  | some _ => updA uid f l
  | none => (uid, f ⟨0, 0⟩) :: l

/-- `UPDATE users SET uwt=uwt+? WHERE tg_id=?` -/
def add_uwt (l : List (Nat × Acct)) (uid : Nat) (d : Rat) : List (Nat × Acct) :=
  adjBal l uid (fun a => ⟨a.uwt + d, a.rub⟩)

/-- `UPDATE users SET rub=rub+? WHERE tg_id=?` -/
def add_rub (l : List (Nat × Acct)) (uid : Nat) (d : Rat) : List (Nat × Acct) :=
  adjBal l uid (fun a => ⟨a.uwt, a.rub + d⟩)

def sumUwt (l : List (Nat × Acct)) : Rat := sumA Acct.uwt l

def sumRub (l : List (Nat × Acct)) : Rat := sumA Acct.rub l

theorem sumUwt_add_uwt (l : List (Nat × Acct)) (uid : Nat) (d : Rat) :
    sumUwt (add_uwt l uid d) = sumUwt l + d := by
  unfold add_uwt adjBal
  cases h : lookupA l uid with
  | none => simp [sumUwt, sumA]; ring
  | some v =>
    have := sumA_updA Acct.uwt uid (fun a => ⟨a.uwt + d, a.rub⟩) l v h
    simp [sumUwt, this]

theorem sumRub_add_uwt (l : List (Nat × Acct)) (uid : Nat) (d : Rat) :
    sumRub (add_uwt l uid d) = sumRub l := by
  unfold add_uwt adjBal
  cases h : lookupA l uid with
  | none => simp [sumRub, sumA]
  | some v =>
    have := sumA_updA Acct.rub uid (fun a => ⟨a.uwt + d, a.rub⟩) l v h
    simp [sumRub, this]

theorem sumRub_add_rub (l : List (Nat × Acct)) (uid : Nat) (d : Rat) :
    sumRub (add_rub l uid d) = sumRub l + d := by
  unfold add_rub adjBal
  cases h : lookupA l uid with
  | none => simp [sumRub, sumA]; ring
  | some v =>
    have := sumA_updA Acct.rub uid (fun a => ⟨a.uwt, a.rub + d⟩) l v h
    simp [sumRub, this]

theorem sumUwt_add_rub (l : List (Nat × Acct)) (uid : Nat) (d : Rat) :
    sumUwt (add_rub l uid d) = sumUwt l := by
  unfold add_rub adjBal
  cases h : lookupA l uid with
  | none => simp [sumUwt, sumA]
  | some v =>
    have := sumA_updA Acct.uwt uid (fun a => ⟨a.uwt, a.rub + d⟩) l v h
    simp [sumUwt, this]

/-! ## Channel subscriptions (Access Grants) -/

/-- Translation of `channel_sub_extend` (src/main.py):
`months <= 0` is coerced to `1`; the base is `utcnow()`, replaced by the
stored expiry when that parses and lies in the future; the new expiry is
`base + timedelta(days=30*months)`.  `cur` is the parse of the existing
`expires_at` row: `none` when there is no row or the string does not parse. -/
def channel_sub_extend (now : Int) (cur : Option Int) (months : Int) : Int :=
  let m := if months ≤ 0 then 1 else months
  let base :=
    match cur with
    | some e => if now < e then e else now
    | none => now
  base + 2592000 * m

/-- The spec's formula for `extend` (§4.5): `max(now, current_expiry) +
periods*period_length` with a 30-day period; written from the spec's words,
to be compared with the code's functions. -/
def grant_extend_spec (now : Int) (cur : Option Int) (periods : Int) : Int :=
  max now (cur.getD now) + 2592000 * periods

/-- Translation of the `ch_sub` purchase handler (src/main3.py): after payment
it computes `expires = iso(utcnow() + timedelta(days=30))` and `sub_upsert`
overwrites the stored `expires_at` with it, ignoring any current expiry. -/
def ch_sub_new_expiry (now : Int) : Int := now + 2592000

/-! ## Entity rows (src/main.py tables) -/

inductive CheckStatus | active | claimed | cancelled
deriving DecidableEq, Repr

/-- One row of main.py's `checks` table (single-claim voucher). -/
structure MCheck where
  creator : Nat
  amount : Rat
  passhash : Option Nat
  status : CheckStatus
  claimedBy : Option Nat
deriving DecidableEq, Repr

inductive BillStatus | active | paid | cancelled
deriving DecidableEq, Repr

/-- One row of the `bills_uwt` table. -/
structure MBill where
  creator : Nat
  amount : Rat
  status : BillStatus
  paidBy : Option Nat
deriving DecidableEq, Repr

inductive Side | buy | sell
deriving DecidableEq, Repr

inductive OrderStatus | opn | filled | cancelled
deriving DecidableEq, Repr

/-- One row of main.py's `orders` table; `amount` is the remaining amount. -/
structure MOrder where
  user : Nat
  side : Side
  price : Rat
  amount : Rat
  status : OrderStatus
  createdAt : Nat
deriving DecidableEq, Repr

inductive GStatus | active | finished | cancelled
deriving DecidableEq, Repr

/-- One row of the `giveaways` table; `endAt` is the parse of the stored
`end_at` string (`none` when `datetime.fromisoformat` raises). -/
structure MGiveaway where
  creator : Nat
  amount : Rat
  status : GStatus
  endAt : Option Int
  winner : Option Nat
deriving DecidableEq, Repr

/-- One row of the `trades` table. -/
structure MTrade where
  buyOrderId : Nat
  sellOrderId : Nat
  price : Rat
  amount : Rat
deriving DecidableEq, Repr

/-- A "finalized" event emitted by `finish_due_giveaways`:
(giveaway id, winner or `None`, prize amount, creator). -/
structure GEvent where
  gid : Nat
  winner : Option Nat
  amount : Rat
  creator : Nat
deriving DecidableEq, Repr

/-- The whole database of src/main.py, plus ghost accounting fields.
`adminUwt`/`adminRub` accumulate the admin-issued `admin_adjust` deltas
(mint minus burn); `exchUwt`/`exchRub` accumulate the two legs of the
fixed-rate exchange; `dustUwt`/`dustRub` accumulate the sub-`1e-12` amounts
that `match_orders` silently drops through its float-noise thresholds.
The ghost fields change nothing observable; they only record sums of
tx-log deltas the conservation statements refer to. -/
structure WState where
  users : List (Nat × Acct)
  checks : List (Nat × MCheck)
  bills : List (Nat × MBill)
  orders : List (Nat × MOrder)
  giveaways : List (Nat × MGiveaway)
  gparts : List (Nat × Nat)
  trades : List MTrade
  rate : Rat
  adminUwt : Rat
  adminRub : Rat
  exchUwt : Rat
  exchRub : Rat
  dustUwt : Rat
  dustRub : Rat
deriving Repr

/-- The freshly initialized database (`init_db`); the default exchange rate
is 10 RUB per UWT. -/
def initState : WState :=
  { users := [], checks := [], bills := [], orders := [], giveaways := []
    gparts := [], trades := [], rate := 10
    adminUwt := 0, adminRub := 0, exchUwt := 0, exchRub := 0
    dustUwt := 0, dustRub := 0 }

inductive Asset | UWT | RUB
deriving DecidableEq, Repr

/-! ## Core operations of src/main.py

Each function returns the state unchanged on every failure path (the source
closes the connection without committing, or commits nothing). -/

/-- `add_asset` called from the admin balance-adjustment flow
(`adm_bal_amount`); the delta is unconditional and may be negative.  The
ghost fields record it as an admin-issued mint/burn delta. -/
def admin_adjust (s : WState) (uid : Nat) (asset : Asset) (delta : Rat) : WState :=
  match asset with
  | .UWT => { s with users := add_uwt s.users uid delta, adminUwt := s.adminUwt + delta }
  | .RUB => { s with users := add_rub s.users uid delta, adminRub := s.adminRub + delta }

/-- `adm_rate_set`: the admin handler rejects non-positive rates, then calls
`set_rate`. -/
def set_rate (s : WState) (r : Rat) : WState :=
  if 0 < r then { s with rate := r } else s

/-- `create_check` (src/main.py): validates `amount > 0` and sufficient UWT,
then debits the creator and inserts an active check row. -/
def create_check (s : WState) (cid creator : Nat) (amount : Rat) (ph : Option Nat) : WState :=
  if amount ≤ 0 then s
  else if (get_balances s.users creator).uwt < amount then s
  else
    match lookupA s.checks cid with
    | some _ => s
    | none =>
      { s with users := add_uwt s.users creator (-amount)
               checks := (cid, ⟨creator, amount, ph, .active, none⟩) :: s.checks }

/-- `claim_check` (src/main.py): not-found / not-active / password gates fail
with no effect; otherwise the check is marked claimed and the claimer is
credited the full amount. -/
def claim_check (s : WState) (cid claimer : Nat) (passHash : Option Nat) : WState :=
  match lookupA s.checks cid with
  | none => s
  | some row =>
    if row.status ≠ .active then s
    else
      let ok :=
        match row.passhash, passHash with
        | none, _ => true
        | some _, none => false
        | some h, some p => p = h
      if ok then
        { s with checks := updA cid
                   (fun c => { c with status := .claimed, claimedBy := some claimer }) s.checks
                 users := add_uwt s.users claimer row.amount }
      else s

/-- `create_bill_uwt`: no funds move; an active bill row is inserted. -/
def create_bill (s : WState) (bid creator : Nat) (amount : Rat) : WState :=
  if amount ≤ 0 then s
  else
    match lookupA s.bills bid with
    | some _ => s
    | none => { s with bills := (bid, ⟨creator, amount, .active, none⟩) :: s.bills }

/-- `pay_bill_uwt` (src/main.py): fails on unknown id, non-active status,
self-pay, or `uwt < amount`; otherwise debits the payer, credits the creator
and marks the bill paid, all in one transaction.  Returns the new state and
the source's success flag. -/
def pay_bill_uwt (s : WState) (bid payer : Nat) : WState × Bool :=
  match lookupA s.bills bid with
  | none => (s, false)
  | some b =>
    if b.status ≠ .active then (s, false)
    else if b.creator = payer then (s, false)
    else if (get_balances s.users payer).uwt < b.amount then (s, false)
    else
      ({ s with users := add_uwt (add_uwt s.users payer (-b.amount)) b.creator b.amount
                bills := updA bid (fun bb => { bb with status := .paid, paidBy := some payer }) s.bills },
       true)

/-- `exchange_buy_uwt` (src/main.py): at the administrator-set rate, debit
`rub_to_spend` RUB and credit `rub_to_spend / rate` UWT to the same user.
The ghost fields record the two legs. -/
def exchange_buy_uwt (s : WState) (uid : Nat) (rubSpend : Rat) : WState :=
  if rubSpend ≤ 0 then s
  else
    let uwtAmount := rubSpend / s.rate
    if (get_balances s.users uid).rub < rubSpend then s
    else
      { s with users := add_uwt (add_rub s.users uid (-rubSpend)) uid uwtAmount
               exchUwt := s.exchUwt + uwtAmount
               exchRub := s.exchRub - rubSpend }

/-- `exchange_sell_uwt` (src/main.py): debit `uwt_to_sell` UWT and credit
`uwt_to_sell * rate` RUB. -/
def exchange_sell_uwt (s : WState) (uid : Nat) (uwtSell : Rat) : WState :=
  if uwtSell ≤ 0 then s
  else
    let rubAmount := uwtSell * s.rate
    if (get_balances s.users uid).uwt < uwtSell then s
    else
      { s with users := add_rub (add_uwt s.users uid (-uwtSell)) uid rubAmount
               exchUwt := s.exchUwt - uwtSell
               exchRub := s.exchRub + rubAmount }

/-! ### The matching engine of src/main.py (`match_orders`) -/

/-- `SELECT * FROM orders WHERE status='open' AND side='buy'
ORDER BY price DESC, created_at ASC LIMIT 1`, returning the row's key. -/
def bestBuyKey : List (Nat × MOrder) → Option (Nat × MOrder)
  | [] => none
  | (k, v) :: t =>
    let rest := bestBuyKey t
    if v.status = .opn ∧ v.side = .buy then
      match rest with
      | none => some (k, v)
      | some (k', v') =>
        if v'.price > v.price ∨ (v'.price = v.price ∧ v'.createdAt < v.createdAt) then
          some (k', v')
        else some (k, v)
    else rest

/-- `SELECT * FROM orders WHERE status='open' AND side='sell'
ORDER BY price ASC, created_at ASC LIMIT 1`, returning the row's key. -/
def bestSellKey : List (Nat × MOrder) → Option (Nat × MOrder)
  | [] => none
  | (k, v) :: t =>
    let rest := bestSellKey t
    if v.status = .opn ∧ v.side = .sell then
      match rest with
      | none => some (k, v)
      | some (k', v') =>
        if v'.price < v.price ∨ (v'.price = v.price ∧ v'.createdAt < v.createdAt) then
          some (k', v')
        else some (k, v)
    else rest

/-- Settlement of one trade in main.py's `match_orders` loop body: the buyer
receives the traded UWT, the seller the RUB proceeds at the sell (resting)
price, the buyer is refunded the limit-vs-trade price difference when it
exceeds `1e-12`, both orders' remainders are decremented and marked filled
when at most `1e-12` is left, and a trade row is recorded.  The ghost dust
fields collect exactly the sub-tolerance amounts the source drops (a refund
of at most `1e-12`, and the value of a remainder zeroed by the fill
threshold). -/
def do_trade (s : WState) (bk : Nat) (b : MOrder) (sk : Nat) (so : MOrder) : WState :=
  let tAmt := min b.amount so.amount
  let tPrice := so.price
  let users1 := add_uwt s.users b.user tAmt
  let rubGain := tAmt * tPrice
  let users2 := add_rub users1 so.user rubGain
  let refund := tAmt * b.price - rubGain
  let users3 := if eps < refund then add_rub users2 b.user refund else users2
  let newBuy := b.amount - tAmt
  let newSell := so.amount - tAmt
  let orders1 := updA bk (fun _ =>
    if newBuy ≤ eps then { b with amount := 0, status := .filled }
    else { b with amount := newBuy }) s.orders
  let orders2 := updA sk (fun _ =>
    if newSell ≤ eps then { so with amount := 0, status := .filled }
    else { so with amount := newSell }) orders1
  let dustR := (if eps < refund then 0 else refund)
             + (if newBuy ≤ eps then b.price * newBuy else 0)
  let dustU := if newSell ≤ eps then newSell else 0
  { s with users := users3, orders := orders2
           trades := s.trades ++ [⟨bk, sk, tPrice, tAmt⟩]
           dustRub := s.dustRub + dustR, dustUwt := s.dustUwt + dustU }

/-- One iteration of the `while True` loop of `match_orders`: `none` means
the loop breaks (no order on one side, or best prices do not cross).  The
rows are re-read by key before use, re-checking the SELECT's WHERE clause
(`status='open' AND side=...`), which the selected rows satisfy. -/
def match_step (s : WState) : Option WState :=
  match bestBuyKey s.orders, bestSellKey s.orders with
  | some (bk, _), some (sk, _) =>
    match lookupA s.orders bk, lookupA s.orders sk with
    | some b, some so =>
      if b.status = .opn ∧ b.side = .buy ∧ so.status = .opn ∧ so.side = .sell then
        if b.price < so.price then none
        else some (do_trade s bk b sk so)
      else none
    | _, _ => none
  | _, _ => none

def match_loop : Nat → WState → WState
  | 0, s => s
  | fuel + 1, s =>
    match match_step s with
    | none => s
    | some s' => match_loop fuel s'

/-- `match_orders` (src/main.py): every iteration fills at least one open
order (the min side's remainder reaches 0), so the order-count is enough
fuel for the loop to reach its break condition. -/
def match_orders (s : WState) : WState := match_loop (s.orders.length + 1) s

/-- `place_order` (src/main.py): validates price/amount, locks `price*amount`
RUB for a buy or `amount` UWT for a sell, inserts the open order, and then
synchronously runs `match_orders`. -/
def place_order (s : WState) (oid uid : Nat) (side : Side) (price amt : Rat)
    (now : Nat) : WState :=
  if price ≤ 0 ∨ amt ≤ 0 then s
  else
    match lookupA s.orders oid with
    | some _ => s
    | none =>
      match side with
      | .buy =>
        let need := price * amt
        if (get_balances s.users uid).rub < need then s
        else
          match_orders
            { s with users := add_rub s.users uid (-need)
                     orders := s.orders ++ [(oid, ⟨uid, .buy, price, amt, .opn, now⟩)] }
      | .sell =>
        if (get_balances s.users uid).uwt < amt then s
        else
          match_orders
            { s with users := add_uwt s.users uid (-amt)
                     orders := s.orders ++ [(oid, ⟨uid, .sell, price, amt, .opn, now⟩)] }

/-- `cancel_order` (src/main.py): refunds the untraded remainder
(`price*amount` RUB for a buy, `amount` UWT for a sell) and marks the order
cancelled. -/
def cancel_order (s : WState) (oid uid : Nat) : WState :=
  match lookupA s.orders oid with
  | none => s
  | some o =>
    if o.status ≠ .opn then s
    else if o.user ≠ uid then s
    else
      let users' :=
        match o.side with
        | .buy => add_rub s.users uid (o.price * o.amount)
        | .sell => add_uwt s.users uid o.amount
      { s with users := users'
               orders := updA oid (fun oo => { oo with status := .cancelled }) s.orders }

/-- `create_giveaway` (src/main.py): validates amount and the 1..20160 minute
duration, debits the creator, and stores `end_at = now + minutes`. -/
def create_giveaway (s : WState) (gid creator : Nat) (amount : Rat)
    (minutes now : Int) : WState :=
  if amount ≤ 0 then s
  else if minutes ≤ 0 ∨ 20160 < minutes then s
  else if (get_balances s.users creator).uwt < amount then s
  else
    match lookupA s.giveaways gid with
    | some _ => s
    | none =>
      { s with users := add_uwt s.users creator (-amount)
               giveaways := (gid, ⟨creator, amount, .active, some (now + 60 * minutes), none⟩) :: s.giveaways }

/-- `join_giveaway` (src/main.py): requires an active giveaway; the
`(giveaway, user)` primary key rejects duplicates. -/
def join_giveaway (s : WState) (gid uid : Nat) : WState :=
  match lookupA s.giveaways gid with
  | none => s
  | some g =>
    if g.status ≠ .active then s
    else if (gid, uid) ∈ s.gparts then s
    else { s with gparts := s.gparts ++ [(gid, uid)] }

/-- `SELECT user_tg_id FROM giveaway_participants WHERE giveaway_id=?` -/
def partsOf (l : List (Nat × Nat)) (gid : Nat) : List Nat :=
  (l.filter (fun p => p.1 = gid)).map (fun p => p.2)

/-- Finalization proper of one due giveaway (the success path of the loop
body of `finish_due_giveaways`): pick a winner from the current participants
(`secrets.choice`, modelled by the `pick` parameter) or fall back to the
creator, credit the full prize to exactly that account, mark the giveaway
finished with the winner recorded, and emit the finalized event. -/
def finalize_apply (pick : List Nat → Nat) (s : WState) (gid : Nat)
    (g : MGiveaway) : WState × GEvent :=
  let ps := partsOf s.gparts gid
  let winner := if ps.isEmpty then none else some (pick ps)
  let beneficiary := winner.getD g.creator
  ({ s with users := add_uwt s.users beneficiary g.amount
            giveaways := updA gid
              (fun gg => { gg with status := .finished, winner := winner }) s.giveaways },
   ⟨gid, winner, g.amount, g.creator⟩)

/-- The body of `finish_due_giveaways` for one snapshot row: skip when the
stored `end_at` does not parse (`except: continue`) or has not passed;
otherwise finalize the giveaway. -/
def finalize_one (now : Int) (pick : List Nat → Nat) (st : WState × List GEvent)
    (row : Nat × MGiveaway) : WState × List GEvent :=
  match row.2.endAt with
  | none => st
  | some t =>
    if now < t then st
    else
      let r := finalize_apply pick st.1 row.1 row.2
      (r.1, st.2 ++ [r.2])

/-- `finish_due_giveaways` (src/main.py): iterate over the snapshot of
active giveaways, finalizing each due one, and return the finalized events
(the source's returned list, here also carrying the creator). -/
def finish_due_giveaways (now : Int) (pick : List Nat → Nat) (s : WState) :
    WState × List GEvent :=
  (s.giveaways.filter (fun p => p.2.status = GStatus.active)).foldl
    (finalize_one now pick) (s, [])

/-- The channel-subscription purchase (`ch_buy_months`, src/main.py): months
must be a positive integer (capped at 120), the total is `price * months`,
and payment moves UWT from subscriber to channel owner via `add_asset`. -/
def channel_sub_buy (s : WState) (buyer owner : Nat) (price : Rat) (months : Int) : WState :=
  if months ≤ 0 then s
  else
    let m : Int := if 120 < months then 120 else months
    let total := price * (m : Rat)
    if (get_balances s.users buyer).uwt < total then s
    else { s with users := add_uwt (add_uwt s.users buyer (-total)) owner total }

/-! ### The operation alphabet and reachability -/

/-- One invocation of a core operation, together with the environment inputs
the source draws at call time: fresh uuids/tokens (`cid`, `bid`, `oid`,
`gid`), the clock (`now`), the admin inputs, and the `secrets.choice`
selection function (`pick`). -/
inductive Op where
  | admin_adjust (uid : Nat) (asset : Asset) (delta : Rat)
  | set_rate (r : Rat)
  | create_check (cid creator : Nat) (amount : Rat) (ph : Option Nat)
  | claim_check (cid claimer : Nat) (passHash : Option Nat)
  | create_bill (bid creator : Nat) (amount : Rat)
  | pay_bill (bid payer : Nat)
  | exchange_buy (uid : Nat) (rubSpend : Rat)
  | exchange_sell (uid : Nat) (uwtSell : Rat)
  | place (oid uid : Nat) (side : Side) (price amt : Rat) (now : Nat)
  | cancel (oid uid : Nat)
  | create_gw (gid creator : Nat) (amount : Rat) (minutes now : Int)
  | join_gw (gid uid : Nat)
  | sweep (now : Int) (pick : List Nat → Nat)
  | channel_buy (buyer owner : Nat) (price : Rat) (months : Int)

def step (op : Op) (s : WState) : WState :=
  match op with
  | .admin_adjust uid asset delta => admin_adjust s uid asset delta
  | .set_rate r => set_rate s r
  | .create_check cid creator amount ph => create_check s cid creator amount ph
  | .claim_check cid claimer ph => claim_check s cid claimer ph
  | .create_bill bid creator amount => create_bill s bid creator amount
  | .pay_bill bid payer => (pay_bill_uwt s bid payer).1
  | .exchange_buy uid rubSpend => exchange_buy_uwt s uid rubSpend
  | .exchange_sell uid uwtSell => exchange_sell_uwt s uid uwtSell
  | .place oid uid side price amt now => place_order s oid uid side price amt now
  | .cancel oid uid => cancel_order s oid uid
  | .create_gw gid creator amount minutes now => create_giveaway s gid creator amount minutes now
  | .join_gw gid uid => join_giveaway s gid uid
  | .sweep now pick => (finish_due_giveaways now pick s).1
  | .channel_buy buyer owner price months => channel_sub_buy s buyer owner price months

def runOps (ops : List Op) : WState := ops.foldl (fun s op => step op s) initState

/-- A state produced by some sequence of core operations from the fresh
database. -/
def Reachable (s : WState) : Prop := ∃ ops, runOps ops = s

/-! ## Conservation quantities -/

/-- UWT escrowed by an active (unclaimed) check: its full amount. -/
def checkEscrowUwt (c : MCheck) : Rat := if c.status = .active then c.amount else 0

/-- UWT locked by an open sell order: its remaining amount. -/
def orderEscrowUwt (o : MOrder) : Rat :=
  if o.status = .opn ∧ o.side = .sell then o.amount else 0

/-- RUB locked by an open buy order: `price * remaining`. -/
def orderEscrowRub (o : MOrder) : Rat :=
  if o.status = .opn ∧ o.side = .buy then o.price * o.amount else 0

/-- UWT escrowed by an active giveaway: its prize. -/
def gwEscrowUwt (g : MGiveaway) : Rat := if g.status = .active then g.amount else 0

/-- All UWT currently held in escrow. -/
def escrowUwt (s : WState) : Rat :=
  sumA checkEscrowUwt s.checks + sumA orderEscrowUwt s.orders +
    sumA gwEscrowUwt s.giveaways

/-- All RUB currently held in escrow. -/
def escrowRub (s : WState) : Rat := sumA orderEscrowRub s.orders

/-- Closed-system conservation for UWT, with the fixed-rate exchange legs and
the matcher's dropped dust carried as explicit source terms. -/
def ConsUwt (s : WState) : Prop :=
  sumUwt s.users + escrowUwt s + s.dustUwt = s.adminUwt + s.exchUwt

/-- Closed-system conservation for RUB, with the fixed-rate exchange legs and
the matcher's dropped dust carried as explicit source terms. -/
def ConsRub (s : WState) : Prop :=
  sumRub s.users + escrowRub s + s.dustRub = s.adminRub + s.exchRub

def Conserved (s : WState) : Prop := ConsUwt s ∧ ConsRub s

/-- Well-formedness: primary keys of the giveaways table are distinct (the
sweep iterates over a snapshot of the table, so its accounting relies on
this). -/
def GwKeysOk (s : WState) : Prop := (s.giveaways.map Prod.fst).Nodup

def Inv (s : WState) : Prop := Conserved s ∧ GwKeysOk s

theorem sumA_append {β : Type} (g : β → Rat) (l1 l2 : List (Nat × β)) :
    sumA g (l1 ++ l2) = sumA g l1 + sumA g l2 := by
  induction l1 with
  | nil => simp [sumA]
  | cons p t ih => obtain ⟨k, v⟩ := p; simp [sumA, ih]; ring

theorem updA_map_fst {β : Type} (key : Nat) (f : β → β) :
    ∀ l : List (Nat × β), (updA key f l).map Prod.fst = l.map Prod.fst := by
  intro l
  induction l with
  | nil => rfl
  | cons p t ih =>
    obtain ⟨k, v⟩ := p
    by_cases hk : k = key <;> simp [updA, hk, ih]

theorem lookupA_none_not_mem {β : Type} (key : Nat) :
    ∀ l : List (Nat × β), lookupA l key = none → key ∉ l.map Prod.fst := by
  intro l
  induction l with
  | nil => simp
  | cons p t ih =>
    obtain ⟨k, v⟩ := p
    intro h
    by_cases hk : k = key
    · simp [lookupA, hk] at h
    · simp [lookupA, hk] at h
      simp [Ne.symm hk, ih h]

theorem mem_lookupA {β : Type} (key : Nat) (v : β) :
    ∀ l : List (Nat × β), (l.map Prod.fst).Nodup → (key, v) ∈ l →
      lookupA l key = some v := by
  intro l
  induction l with
  | nil => simp
  | cons p t ih =>
    obtain ⟨k, w⟩ := p
    intro hnd hmem
    simp at hnd
    have hnd' : k ∉ t.map Prod.fst ∧ (t.map Prod.fst).Nodup := by simpa using hnd
    rcases List.mem_cons.mp hmem with h | h
    · cases h
      simp [lookupA]
    · have hk : k ≠ key := by
        intro hk
        refine hnd'.1 ?_
        rw [hk]
        exact List.mem_map.mpr ⟨(key, v), h, rfl⟩
      simp [lookupA, hk, ih hnd'.2 h]

/-! ### Conservation of the loop-free operations -/

theorem admin_adjust_conserved (s : WState) (uid : Nat) (a : Asset) (d : Rat)
    (h : Conserved s) : Conserved (admin_adjust s uid a d) := by
  obtain ⟨h1, h2⟩ := h
  cases a <;>
    constructor <;>
    simp_all [admin_adjust, ConsUwt, ConsRub, escrowUwt, escrowRub,
      sumUwt_add_uwt, sumRub_add_uwt, sumUwt_add_rub, sumRub_add_rub] <;>
    linarith

theorem set_rate_conserved (s : WState) (r : Rat) (h : Conserved s) :
    Conserved (set_rate s r) := by
  unfold set_rate
  split <;> simpa [Conserved, ConsUwt, ConsRub, escrowUwt, escrowRub] using h

theorem create_check_conserved (s : WState) (cid creator : Nat) (amount : Rat)
    (ph : Option Nat) (h : Conserved s) :
    Conserved (create_check s cid creator amount ph) := by
  obtain ⟨h1, h2⟩ := h
  unfold create_check
  split
  · exact ⟨h1, h2⟩
  split
  · exact ⟨h1, h2⟩
  split
  · exact ⟨h1, h2⟩
  constructor
  · simp_all [ConsUwt, escrowUwt, sumUwt_add_uwt, sumA, checkEscrowUwt]
    linarith
  · simp_all [ConsRub, escrowRub, sumRub_add_uwt, sumA]

theorem claim_check_conserved (s : WState) (cid claimer : Nat)
    (ph : Option Nat) (h : Conserved s) :
    Conserved (claim_check s cid claimer ph) := by
  obtain ⟨h1, h2⟩ := h
  unfold claim_check
  cases hrow : lookupA s.checks cid with
  | none => exact ⟨h1, h2⟩
  | some row =>
    simp only
    split
    · exact ⟨h1, h2⟩
    split
    · rename_i hactive _
      have hupd := sumA_updA checkEscrowUwt cid
        (fun c => { c with status := .claimed, claimedBy := some claimer }) s.checks row hrow
      have hact : row.status = CheckStatus.active := by
        by_contra hc
        exact hactive hc
      constructor
      · simp_all [ConsUwt, escrowUwt, sumUwt_add_uwt, checkEscrowUwt, hact]
        linarith
      · simp_all [ConsRub, escrowRub, sumRub_add_uwt]
    · exact ⟨h1, h2⟩

theorem create_bill_conserved (s : WState) (bid creator : Nat) (amount : Rat)
    (h : Conserved s) : Conserved (create_bill s bid creator amount) := by
  obtain ⟨h1, h2⟩ := h
  unfold create_bill
  split
  · exact ⟨h1, h2⟩
  split
  · exact ⟨h1, h2⟩
  constructor
  · simp_all [ConsUwt, escrowUwt]
  · simp_all [ConsRub, escrowRub]

theorem pay_bill_conserved (s : WState) (bid payer : Nat) (h : Conserved s) :
    Conserved (pay_bill_uwt s bid payer).1 := by
  obtain ⟨h1, h2⟩ := h
  unfold pay_bill_uwt
  cases hrow : lookupA s.bills bid with
  | none => exact ⟨h1, h2⟩
  | some b =>
    simp only
    split
    · exact ⟨h1, h2⟩
    split
    · exact ⟨h1, h2⟩
    split
    · exact ⟨h1, h2⟩
    constructor
    · simp_all [ConsUwt, escrowUwt, sumUwt_add_uwt]
    · simp_all [ConsRub, escrowRub, sumRub_add_uwt]

theorem exchange_buy_conserved (s : WState) (uid : Nat) (rubSpend : Rat)
    (h : Conserved s) : Conserved (exchange_buy_uwt s uid rubSpend) := by
  obtain ⟨h1, h2⟩ := h
  unfold exchange_buy_uwt
  split
  · exact ⟨h1, h2⟩
  split
  · exact ⟨h1, h2⟩
  constructor
  · simp_all [ConsUwt, escrowUwt, sumUwt_add_uwt, sumUwt_add_rub]
    linarith
  · simp_all [ConsRub, escrowRub, sumRub_add_uwt, sumRub_add_rub]
    linarith

theorem exchange_sell_conserved (s : WState) (uid : Nat) (uwtSell : Rat)
    (h : Conserved s) : Conserved (exchange_sell_uwt s uid uwtSell) := by
  obtain ⟨h1, h2⟩ := h
  unfold exchange_sell_uwt
  split
  · exact ⟨h1, h2⟩
  split
  · exact ⟨h1, h2⟩
  constructor
  · simp_all [ConsUwt, escrowUwt, sumUwt_add_uwt, sumUwt_add_rub]
    linarith
  · simp_all [ConsRub, escrowRub, sumRub_add_uwt, sumRub_add_rub]
    linarith

theorem cancel_order_conserved (s : WState) (oid uid : Nat) (h : Conserved s) :
    Conserved (cancel_order s oid uid) := by
  obtain ⟨h1, h2⟩ := h
  unfold cancel_order
  cases hrow : lookupA s.orders oid with
  | none => exact ⟨h1, h2⟩
  | some o =>
    simp only
    split
    · exact ⟨h1, h2⟩
    split
    · exact ⟨h1, h2⟩
    rename_i hopen _
    have hop : o.status = OrderStatus.opn := by
      by_contra hc
      exact hopen hc
    have huU := sumA_updA orderEscrowUwt oid
      (fun oo => { oo with status := .cancelled }) s.orders o hrow
    have huR := sumA_updA orderEscrowRub oid
      (fun oo => { oo with status := .cancelled }) s.orders o hrow
    cases hside : o.side
    · constructor
      · simp_all [ConsUwt, escrowUwt, sumUwt_add_rub, orderEscrowUwt, hop, hside]
      · simp_all [ConsRub, escrowRub, sumRub_add_rub, orderEscrowRub, hop, hside]
        linarith
    · constructor
      · simp_all [ConsUwt, escrowUwt, sumUwt_add_uwt, orderEscrowUwt, hop, hside]
        linarith
      · simp_all [ConsRub, escrowRub, sumRub_add_uwt, orderEscrowRub, hop, hside]

theorem create_giveaway_conserved (s : WState) (gid creator : Nat)
    (amount : Rat) (minutes now : Int) (h : Conserved s) :
    Conserved (create_giveaway s gid creator amount minutes now) := by
  obtain ⟨h1, h2⟩ := h
  unfold create_giveaway
  split
  · exact ⟨h1, h2⟩
  split
  · exact ⟨h1, h2⟩
  split
  · exact ⟨h1, h2⟩
  split
  · exact ⟨h1, h2⟩
  constructor
  · simp_all [ConsUwt, escrowUwt, sumUwt_add_uwt, sumA, gwEscrowUwt]
    linarith
  · simp_all [ConsRub, escrowRub, sumRub_add_uwt, sumA]

theorem join_giveaway_conserved (s : WState) (gid uid : Nat) (h : Conserved s) :
    Conserved (join_giveaway s gid uid) := by
  obtain ⟨h1, h2⟩ := h
  unfold join_giveaway
  cases lookupA s.giveaways gid with
  | none => exact ⟨h1, h2⟩
  | some g =>
    simp only
    split
    · exact ⟨h1, h2⟩
    split
    · exact ⟨h1, h2⟩
    constructor
    · simp_all [ConsUwt, escrowUwt]
    · simp_all [ConsRub, escrowRub]

theorem channel_sub_buy_conserved (s : WState) (buyer owner : Nat)
    (price : Rat) (months : Int) (h : Conserved s) :
    Conserved (channel_sub_buy s buyer owner price months) := by
  obtain ⟨h1, h2⟩ := h
  unfold channel_sub_buy
  by_cases hm : months ≤ 0
  · simp only [if_pos hm]
    exact ⟨h1, h2⟩
  · simp only [if_neg hm]
    by_cases hb : (get_balances s.users buyer).uwt <
        price * ((if 120 < months then 120 else months : Int) : Rat)
    · simp only [if_pos hb]
      exact ⟨h1, h2⟩
    · simp only [if_neg hb]
      constructor
      · simp only [ConsUwt, escrowUwt] at h1 ⊢
        simp [sumUwt_add_uwt]
        linarith
      · simp only [ConsRub, escrowRub] at h2 ⊢
        simp [sumRub_add_uwt]
        linarith

/-! ### Conservation of the matching engine -/

theorem sumA_updA2 {β : Type} (g : β → Rat) (k1 k2 : Nat) (f1 f2 : β → β)
    (hne : k2 ≠ k1) (l : List (Nat × β)) (v1 v2 : β)
    (h1 : lookupA l k1 = some v1) (h2 : lookupA l k2 = some v2) :
    sumA g (updA k2 f2 (updA k1 f1 l)) =
      sumA g l + (g (f1 v1) - g v1) + (g (f2 v2) - g v2) := by
  rw [sumA_updA g k2 f2 _ v2 (by rw [lookupA_updA_ne k1 k2 f1 hne]; exact h2),
      sumA_updA g k1 f1 l v1 h1]

theorem do_trade_conserved (s : WState) (bk sk : Nat) (b so : MOrder)
    (hb : lookupA s.orders bk = some b) (hs : lookupA s.orders sk = some so)
    (hbs : b.status = .opn) (hbb : b.side = .buy)
    (hss : so.status = .opn) (hsq : so.side = .sell)
    (h : Conserved s) : Conserved (do_trade s bk b sk so) := by
  obtain ⟨h1, h2⟩ := h
  have hne : bk ≠ sk := by
    intro hEq
    subst hEq
    rw [hb] at hs
    have hbso : b = so := Option.some.inj hs
    rw [← hbso, hbb] at hsq
    exact Side.noConfusion hsq
  unfold do_trade
  dsimp only
  have hbsF : (Side.buy = Side.sell) = False := by simp
  have hsbF : (Side.sell = Side.buy) = False := by simp
  constructor
  · simp only [ConsUwt, escrowUwt] at h1 ⊢
    rw [sumA_updA2 orderEscrowUwt bk sk _ _ (Ne.symm hne) s.orders b so hb hs]
    split_ifs <;>
      simp only [orderEscrowUwt, hbb, hbs, hsq, hss, hbsF, hsbF, and_false,
        and_true, true_and, false_and, if_false, if_true, ite_self,
        eq_self_iff_true, ite_true, ite_false, sumUwt_add_uwt, sumUwt_add_rub,
        add_zero] <;>
      linear_combination h1
  · simp only [ConsRub, escrowRub] at h2 ⊢
    rw [sumA_updA2 orderEscrowRub bk sk _ _ (Ne.symm hne) s.orders b so hb hs]
    split_ifs <;>
      simp only [orderEscrowRub, hbb, hbs, hsq, hss, hbsF, hsbF, and_false,
        and_true, true_and, false_and, if_false, if_true, ite_self,
        eq_self_iff_true, ite_true, ite_false, sumRub_add_uwt, sumRub_add_rub,
        mul_zero, add_zero] <;>
      linear_combination h2

theorem do_trade_giveaways (s : WState) (bk sk : Nat) (b so : MOrder) :
    (do_trade s bk b sk so).giveaways = s.giveaways := rfl

theorem do_trade_checks (s : WState) (bk sk : Nat) (b so : MOrder) :
    (do_trade s bk b sk so).checks = s.checks := rfl

theorem match_step_conserved (s s' : WState) (hstep : match_step s = some s')
    (h : Conserved s) : Conserved s' := by
  unfold match_step at hstep
  cases hbk : bestBuyKey s.orders with
  | none => rw [hbk] at hstep; exact absurd hstep (by simp)
  | some p =>
    cases hsk : bestSellKey s.orders with
    | none => rw [hbk, hsk] at hstep; exact absurd hstep (by simp)
    | some q =>
      obtain ⟨bk, bv⟩ := p
      obtain ⟨sk, sv⟩ := q
      rw [hbk, hsk] at hstep
      simp only at hstep
      cases hlb : lookupA s.orders bk with
      | none => rw [hlb] at hstep; exact absurd hstep (by simp)
      | some b =>
        cases hls : lookupA s.orders sk with
        | none => rw [hlb, hls] at hstep; exact absurd hstep (by simp)
        | some so =>
          rw [hlb, hls] at hstep
          simp only at hstep
          split at hstep
          · rename_i hguard
            obtain ⟨g1, g2, g3, g4⟩ := hguard
            split at hstep
            · exact absurd hstep (by simp)
            · have := Option.some.inj hstep
              rw [← this]
              exact do_trade_conserved s bk sk b so hlb hls g1 g2 g3 g4 ⟨h.1, h.2⟩
          · exact absurd hstep (by simp)

theorem match_step_giveaways (s s' : WState) (hstep : match_step s = some s') :
    s'.giveaways = s.giveaways := by
  unfold match_step at hstep
  cases hbk : bestBuyKey s.orders with
  | none => rw [hbk] at hstep; exact absurd hstep (by simp)
  | some p =>
    cases hsk : bestSellKey s.orders with
    | none => rw [hbk, hsk] at hstep; exact absurd hstep (by simp)
    | some q =>
      obtain ⟨bk, bv⟩ := p
      obtain ⟨sk, sv⟩ := q
      rw [hbk, hsk] at hstep
      simp only at hstep
      cases hlb : lookupA s.orders bk with
      | none => rw [hlb] at hstep; exact absurd hstep (by simp)
      | some b =>
        cases hls : lookupA s.orders sk with
        | none => rw [hlb, hls] at hstep; exact absurd hstep (by simp)
        | some so =>
          rw [hlb, hls] at hstep
          simp only at hstep
          split at hstep
          · split at hstep
            · exact absurd hstep (by simp)
            · rw [← Option.some.inj hstep]
              exact do_trade_giveaways s bk sk b so
          · exact absurd hstep (by simp)

theorem match_loop_conserved (fuel : Nat) :
    ∀ s : WState, Conserved s → Conserved (match_loop fuel s) := by
  induction fuel with
  | zero => intro s h; exact h
  | succ n ih =>
    intro s h
    unfold match_loop
    cases hstep : match_step s with
    | none => exact h
    | some s' => exact ih s' (match_step_conserved s s' hstep h)

theorem match_loop_giveaways (fuel : Nat) :
    ∀ s : WState, (match_loop fuel s).giveaways = s.giveaways := by
  induction fuel with
  | zero => intro s; rfl
  | succ n ih =>
    intro s
    unfold match_loop
    cases hstep : match_step s with
    | none => rfl
    | some s' => rw [ih s', match_step_giveaways s s' hstep]

theorem match_orders_conserved (s : WState) (h : Conserved s) :
    Conserved (match_orders s) := match_loop_conserved _ s h

theorem place_order_conserved (s : WState) (oid uid : Nat) (side : Side)
    (price amt : Rat) (now : Nat) (h : Conserved s) :
    Conserved (place_order s oid uid side price amt now) := by
  obtain ⟨h1, h2⟩ := h
  unfold place_order
  split
  · exact ⟨h1, h2⟩
  split
  · exact ⟨h1, h2⟩
  cases side
  · simp only
    split
    · exact ⟨h1, h2⟩
    refine match_orders_conserved _ ⟨?_, ?_⟩
    · simp only [ConsUwt, escrowUwt] at h1 ⊢
      simp [sumUwt_add_rub, sumA_append, sumA, orderEscrowUwt]
      linarith
    · simp only [ConsRub, escrowRub] at h2 ⊢
      simp [sumRub_add_rub, sumA_append, sumA, orderEscrowRub]
      linarith
  · simp only
    split
    · exact ⟨h1, h2⟩
    refine match_orders_conserved _ ⟨?_, ?_⟩
    · simp only [ConsUwt, escrowUwt] at h1 ⊢
      simp [sumUwt_add_uwt, sumA_append, sumA, orderEscrowUwt]
      linarith
    · simp only [ConsRub, escrowRub] at h2 ⊢
      simp [sumRub_add_uwt, sumA_append, sumA, orderEscrowRub]
      linarith

/-! ### Conservation of the giveaway sweep -/

theorem finalize_one_skip (now : Int) (pick : List Nat → Nat)
    (st : WState × List GEvent) (row : Nat × MGiveaway)
    (h : row.2.endAt = none ∨ ∃ t, row.2.endAt = some t ∧ now < t) :
    finalize_one now pick st row = st := by
  unfold finalize_one
  dsimp only
  rcases h with h | ⟨t, h, ht⟩
  · rw [h]
  · rw [h]
    simp only [if_pos ht]

theorem finalize_one_due (now : Int) (pick : List Nat → Nat)
    (st : WState × List GEvent) (gid : Nat) (g : MGiveaway) (tm : Int)
    (hend : g.endAt = some tm) (hdue : ¬now < tm) :
    finalize_one now pick st (gid, g) =
      ((finalize_apply pick st.1 gid g).1,
        st.2 ++ [(finalize_apply pick st.1 gid g).2]) := by
  unfold finalize_one
  dsimp only
  rw [hend]
  simp only [if_neg hdue]

theorem finalize_apply_conserved (pick : List Nat → Nat) (s : WState)
    (gid : Nat) (g : MGiveaway) (hlk : lookupA s.giveaways gid = some g)
    (hact : g.status = .active) (h : Conserved s) :
    Conserved (finalize_apply pick s gid g).1 := by
  obtain ⟨h1, h2⟩ := h
  unfold finalize_apply
  dsimp only
  have hupd := sumA_updA gwEscrowUwt gid
    (fun gg => { gg with
                 status := .finished,
                 winner := if (partsOf s.gparts gid).isEmpty then none
                           else some (pick (partsOf s.gparts gid)) })
    s.giveaways g hlk
  constructor
  · simp only [ConsUwt, escrowUwt] at h1 ⊢
    rw [hupd]
    simp [gwEscrowUwt, hact, sumUwt_add_uwt]
    linarith
  · simp only [ConsRub, escrowRub] at h2 ⊢
    simp only [sumRub_add_uwt]
    exact h2

theorem finalize_apply_lookup_ne (pick : List Nat → Nat) (s : WState)
    (gid : Nat) (g : MGiveaway) (k : Nat) (hk : k ≠ gid) :
    lookupA (finalize_apply pick s gid g).1.giveaways k =
      lookupA s.giveaways k := by
  unfold finalize_apply
  dsimp only
  rw [lookupA_updA_ne gid k _ hk s.giveaways]

theorem finalize_apply_keys (pick : List Nat → Nat) (s : WState) (gid : Nat)
    (g : MGiveaway) :
    (finalize_apply pick s gid g).1.giveaways.map Prod.fst =
      s.giveaways.map Prod.fst := by
  unfold finalize_apply
  dsimp only
  exact updA_map_fst gid _ s.giveaways

theorem finalize_fold_conserved (now : Int) (pick : List Nat → Nat) :
    ∀ (rows : List (Nat × MGiveaway)) (s : WState) (evs : List GEvent),
      Conserved s →
      (∀ p ∈ rows, lookupA s.giveaways p.1 = some p.2 ∧ p.2.status = .active) →
      (rows.map Prod.fst).Nodup →
      Conserved (rows.foldl (finalize_one now pick) (s, evs)).1 := by
  intro rows
  induction rows with
  | nil => intro s evs h _ _; exact h
  | cons p t ih =>
    intro s evs h hrows hnd
    obtain ⟨gid, g⟩ := p
    have hrow := hrows (gid, g) (List.mem_cons_self _ _)
    have hnd' : gid ∉ t.map Prod.fst ∧ (t.map Prod.fst).Nodup := by simpa using hnd
    simp only [List.foldl_cons]
    cases hend : g.endAt with
    | none =>
      rw [finalize_one_skip now pick (s, evs) (gid, g) (Or.inl hend)]
      exact ih s evs h (fun q hq => hrows q (List.mem_cons_of_mem _ hq)) hnd'.2
    | some tm =>
      by_cases hdue : now < tm
      · rw [finalize_one_skip now pick (s, evs) (gid, g) (Or.inr ⟨tm, hend, hdue⟩)]
        exact ih s evs h (fun q hq => hrows q (List.mem_cons_of_mem _ hq)) hnd'.2
      · rw [finalize_one_due now pick (s, evs) gid g tm hend hdue]
        refine ih _ _ ?_ ?_ hnd'.2
        · exact finalize_apply_conserved pick s gid g hrow.1 hrow.2 h
        · intro q hq
          obtain ⟨hlk, hact⟩ := hrows q (List.mem_cons_of_mem _ hq)
          have hqne : q.1 ≠ gid := by
            intro hEq
            exact hnd'.1 (hEq ▸ List.mem_map.mpr ⟨q, hq, rfl⟩)
          exact ⟨(finalize_apply_lookup_ne pick s gid g q.1 hqne).trans hlk, hact⟩

theorem sublist_filter_keys_nodup (l : List (Nat × MGiveaway))
    (h : (l.map Prod.fst).Nodup) (p : Nat × MGiveaway → Bool) :
    ((l.filter p).map Prod.fst).Nodup := by
  refine List.Nodup.sublist ?_ h
  exact List.Sublist.map Prod.fst (List.filter_sublist l)

theorem sweep_conserved (now : Int) (pick : List Nat → Nat) (s : WState)
    (h : Conserved s) (hk : GwKeysOk s) :
    Conserved (finish_due_giveaways now pick s).1 := by
  unfold finish_due_giveaways
  refine finalize_fold_conserved now pick _ s [] h ?_ ?_
  · intro p hp
    have hmem := List.mem_filter.mp hp
    refine ⟨mem_lookupA p.1 p.2 s.giveaways hk ?_, ?_⟩
    · exact (Prod.mk.eta ▸ hmem.1)
    · have := hmem.2
      simpa using this
  · exact sublist_filter_keys_nodup s.giveaways hk _

/-! ### The giveaways table's keys through each operation -/

theorem create_check_giveaways (s : WState) (cid creator : Nat) (amount : Rat)
    (ph : Option Nat) : (create_check s cid creator amount ph).giveaways = s.giveaways := by
  unfold create_check
  repeat' split
  all_goals rfl

theorem claim_check_giveaways (s : WState) (cid claimer : Nat) (ph : Option Nat) :
    (claim_check s cid claimer ph).giveaways = s.giveaways := by
  unfold claim_check
  dsimp only
  repeat' split
  all_goals rfl

theorem create_bill_giveaways (s : WState) (bid creator : Nat) (amount : Rat) :
    (create_bill s bid creator amount).giveaways = s.giveaways := by
  unfold create_bill
  repeat' split
  all_goals rfl

theorem pay_bill_giveaways (s : WState) (bid payer : Nat) :
    (pay_bill_uwt s bid payer).1.giveaways = s.giveaways := by
  unfold pay_bill_uwt
  repeat' split
  all_goals rfl

theorem exchange_buy_giveaways (s : WState) (uid : Nat) (rubSpend : Rat) :
    (exchange_buy_uwt s uid rubSpend).giveaways = s.giveaways := by
  unfold exchange_buy_uwt
  repeat' split
  all_goals rfl

theorem exchange_sell_giveaways (s : WState) (uid : Nat) (uwtSell : Rat) :
    (exchange_sell_uwt s uid uwtSell).giveaways = s.giveaways := by
  unfold exchange_sell_uwt
  repeat' split
  all_goals rfl

theorem place_order_giveaways (s : WState) (oid uid : Nat) (side : Side)
    (price amt : Rat) (now : Nat) :
    (place_order s oid uid side price amt now).giveaways = s.giveaways := by
  unfold place_order
  dsimp only
  repeat' split
  all_goals first
    | rfl
    | (unfold match_orders; rw [match_loop_giveaways])

theorem cancel_order_giveaways (s : WState) (oid uid : Nat) :
    (cancel_order s oid uid).giveaways = s.giveaways := by
  unfold cancel_order
  repeat' split
  all_goals rfl

theorem join_giveaway_giveaways (s : WState) (gid uid : Nat) :
    (join_giveaway s gid uid).giveaways = s.giveaways := by
  unfold join_giveaway
  repeat' split
  all_goals rfl

theorem channel_sub_buy_giveaways (s : WState) (buyer owner : Nat)
    (price : Rat) (months : Int) :
    (channel_sub_buy s buyer owner price months).giveaways = s.giveaways := by
  unfold channel_sub_buy
  dsimp only
  repeat' split
  all_goals rfl

theorem finalize_fold_keys (now : Int) (pick : List Nat → Nat) :
    ∀ (rows : List (Nat × MGiveaway)) (st : WState × List GEvent),
      ((rows.foldl (finalize_one now pick) st).1.giveaways.map Prod.fst) =
        st.1.giveaways.map Prod.fst := by
  intro rows
  induction rows with
  | nil => intro st; rfl
  | cons p t ih =>
    intro st
    simp only [List.foldl_cons]
    rw [ih]
    obtain ⟨gid, g⟩ := p
    cases hend : g.endAt with
    | none => rw [finalize_one_skip now pick st (gid, g) (Or.inl hend)]
    | some tm =>
      by_cases hdue : now < tm
      · rw [finalize_one_skip now pick st (gid, g) (Or.inr ⟨tm, hend, hdue⟩)]
      · rw [finalize_one_due now pick st gid g tm hend hdue]
        exact finalize_apply_keys pick st.1 gid g

theorem step_gwkeys (op : Op) (s : WState) (hk : GwKeysOk s) :
    GwKeysOk (step op s) := by
  cases op with
  | admin_adjust uid a d =>
    show GwKeysOk (admin_adjust s uid a d)
    cases a <;> exact hk
  | set_rate r =>
    show GwKeysOk (set_rate s r)
    unfold set_rate
    split <;> exact hk
  | create_check cid creator amount ph =>
    show GwKeysOk (create_check s cid creator amount ph)
    unfold GwKeysOk
    rw [create_check_giveaways]
    exact hk
  | claim_check cid claimer ph =>
    show GwKeysOk (claim_check s cid claimer ph)
    unfold GwKeysOk
    rw [claim_check_giveaways]
    exact hk
  | create_bill bid creator amount =>
    show GwKeysOk (create_bill s bid creator amount)
    unfold GwKeysOk
    rw [create_bill_giveaways]
    exact hk
  | pay_bill bid payer =>
    show GwKeysOk (pay_bill_uwt s bid payer).1
    unfold GwKeysOk
    rw [pay_bill_giveaways]
    exact hk
  | exchange_buy uid r =>
    show GwKeysOk (exchange_buy_uwt s uid r)
    unfold GwKeysOk
    rw [exchange_buy_giveaways]
    exact hk
  | exchange_sell uid u =>
    show GwKeysOk (exchange_sell_uwt s uid u)
    unfold GwKeysOk
    rw [exchange_sell_giveaways]
    exact hk
  | place oid uid side price amt now =>
    show GwKeysOk (place_order s oid uid side price amt now)
    unfold GwKeysOk
    rw [place_order_giveaways]
    exact hk
  | cancel oid uid =>
    show GwKeysOk (cancel_order s oid uid)
    unfold GwKeysOk
    rw [cancel_order_giveaways]
    exact hk
  | create_gw gid creator amount minutes now =>
    show GwKeysOk (create_giveaway s gid creator amount minutes now)
    unfold create_giveaway
    repeat' split
    all_goals try exact hk
    rename_i hnone
    unfold GwKeysOk
    simp only [List.map_cons]
    exact List.Nodup.cons (lookupA_none_not_mem gid s.giveaways hnone) hk
  | join_gw gid uid =>
    show GwKeysOk (join_giveaway s gid uid)
    unfold GwKeysOk
    rw [join_giveaway_giveaways]
    exact hk
  | sweep now pick =>
    show GwKeysOk (finish_due_giveaways now pick s).1
    unfold GwKeysOk finish_due_giveaways
    rw [finalize_fold_keys]
    exact hk
  | channel_buy buyer owner price months =>
    show GwKeysOk (channel_sub_buy s buyer owner price months)
    unfold GwKeysOk
    rw [channel_sub_buy_giveaways]
    exact hk

theorem step_inv (op : Op) (s : WState) (h : Inv s) : Inv (step op s) := by
  obtain ⟨hc, hk⟩ := h
  refine ⟨?_, step_gwkeys op s hk⟩
  cases op with
  | admin_adjust uid a d => exact admin_adjust_conserved s uid a d hc
  | set_rate r => exact set_rate_conserved s r hc
  | create_check cid creator amount ph => exact create_check_conserved s cid creator amount ph hc
  | claim_check cid claimer ph => exact claim_check_conserved s cid claimer ph hc
  | create_bill bid creator amount => exact create_bill_conserved s bid creator amount hc
  | pay_bill bid payer => exact pay_bill_conserved s bid payer hc
  | exchange_buy uid r => exact exchange_buy_conserved s uid r hc
  | exchange_sell uid u => exact exchange_sell_conserved s uid u hc
  | place oid uid side price amt now => exact place_order_conserved s oid uid side price amt now hc
  | cancel oid uid => exact cancel_order_conserved s oid uid hc
  | create_gw gid creator amount minutes now =>
    exact create_giveaway_conserved s gid creator amount minutes now hc
  | join_gw gid uid => exact join_giveaway_conserved s gid uid hc
  | sweep now pick => exact sweep_conserved now pick s hc hk
  | channel_buy buyer owner price months =>
    exact channel_sub_buy_conserved s buyer owner price months hc

theorem initState_inv : Inv initState := by
  constructor
  · constructor <;> simp [ConsUwt, ConsRub, initState, sumUwt, sumRub,
      escrowUwt, escrowRub, sumA]
  · simp [GwKeysOk, initState]

theorem foldl_inv : ∀ (ops : List Op) (s : WState), Inv s →
    Inv (ops.foldl (fun s op => step op s) s) := by
  intro ops
  induction ops with
  | nil => intro s h; exact h
  | cons op t ih =>
    intro s h
    simp only [List.foldl_cons]
    exact ih (step op s) (step_inv op s h)

theorem reachable_inv (s : WState) (h : Reachable s) : Inv s := by
  obtain ⟨ops, hops⟩ := h
  rw [← hops]
  exact foldl_inv ops initState initState_inv

/-! ## Claim C1: closed-system conservation -/

/-- The trace refuting C1 as stated: the admin credits user 1 with 10 RUB,
then user 1 converts them to UWT through the fixed-rate exchange at the
default rate of 10 RUB/UWT. -/
def c1_cex_trace : List Op := [Op.admin_adjust 1 Asset.RUB 10, Op.exchange_buy 1 10]

/-- C1, counterexample: the claim's conservation equation (account balances
plus outstanding escrow equals admin-issued mint minus burn deltas, per
asset) fails on a reachable state.  After `c1_cex_trace` the UWT balance sum
is 1 (minted by the fixed-rate exchange `exchange_buy_uwt`, with no
counterparty debited) and the RUB sum is 0, while no admin UWT delta was
ever issued — both per-asset equations are violated. -/
theorem c1_conservation_counterexample :
    Reachable (runOps c1_cex_trace) ∧
      ¬(sumUwt (runOps c1_cex_trace).users + escrowUwt (runOps c1_cex_trace)
          = (runOps c1_cex_trace).adminUwt) ∧
      ¬(sumRub (runOps c1_cex_trace).users + escrowRub (runOps c1_cex_trace)
          = (runOps c1_cex_trace).adminRub) := by
  refine ⟨⟨c1_cex_trace, rfl⟩, ?_, ?_⟩ <;>
    norm_num [c1_cex_trace, runOps, step, admin_adjust, exchange_buy_uwt,
      initState, get_balances, lookupA, add_uwt, add_rub, adjBal, updA,
      sumUwt, sumRub, sumA, escrowUwt, escrowRub]

/-- C1, amended: closed-system conservation holds for every reachable state
once the two legs of the fixed-rate exchange are themselves counted as a
burn of the source asset and a mint of the target asset (`exchUwt`,
`exchRub`), and the sub-`1e-12` dust that `match_orders` drops through its
float-noise thresholds is carried as an explicit sink (`dustUwt`,
`dustRub`).  For each asset: the sum of all account balances plus all
outstanding escrow (active check amounts, open-order locks, active giveaway
prizes) plus dropped dust equals the net admin-issued deltas plus the net
exchange-issued deltas. -/
theorem c1_conservation_amended (s : WState) (h : Reachable s) :
    sumUwt s.users + escrowUwt s + s.dustUwt = s.adminUwt + s.exchUwt ∧
      sumRub s.users + escrowRub s + s.dustRub = s.adminRub + s.exchRub :=
  (reachable_inv s h).1

/-- Demonstration trace for the amended conservation theorem: mint, voucher
creation and claim, a giveaway with a join and a sweep, a bill payment, and
a resting order. -/
def c1_demo_trace : List Op :=
  [Op.admin_adjust 1 Asset.UWT 100,
   Op.admin_adjust 2 Asset.RUB 50,
   Op.create_check 5 1 40 none,
   Op.claim_check 5 2 none,
   Op.create_bill 6 2 10,
   Op.pay_bill 6 1,
   Op.create_gw 7 1 30 10 0,
   Op.join_gw 7 2,
   Op.sweep 700 (fun l => l.headD 0),
   Op.place 9 2 Side.buy 5 4 3]

theorem c1_conservation_amended_witness :
    Reachable (runOps c1_demo_trace) ∧
      (sumUwt (runOps c1_demo_trace).users + escrowUwt (runOps c1_demo_trace) +
          (runOps c1_demo_trace).dustUwt
        = (runOps c1_demo_trace).adminUwt + (runOps c1_demo_trace).exchUwt) :=
  ⟨⟨c1_demo_trace, rfl⟩,
   (c1_conservation_amended (runOps c1_demo_trace) ⟨c1_demo_trace, rfl⟩).1⟩

/-! ## Claims C7 and C9: channel-subscription extension -/

/-- C7, counterexample: the claim's formula `max(now, current_expiry) +
n*30days` fails on main3.py's subscription purchase (`ch_sub`), which
overwrites the stored expiry with `now + 30 days`: with `now = 0` and a
current expiry 20 days away (1728000 s), one purchased period yields
expiry 2592000 (30 days) instead of the claimed 4320000 (50 days). -/
theorem c7_grant_extension_counterexample :
    ch_sub_new_expiry 0 = 2592000 ∧
      grant_extend_spec 0 (some 1728000) 1 = 4320000 ∧
      ch_sub_new_expiry 0 ≠ grant_extend_spec 0 (some 1728000) 1 := by
  refine ⟨rfl, ?_, ?_⟩ <;> decide

/-- C7, amended: main.py's `channel_sub_extend` does implement the claimed
extension — for `n ≥ 1` periods the new expiry is exactly
`max(now, current_expiry) + n*30days`, it never precedes the previous
expiry, and an already-expired grant extends from `now`.  main3.py's
one-period purchase instead overwrites the expiry with `now + 30 days`
(remaining time does not stack); within that flow a grant still never
shortens, because any previously stored expiry is `t + 30 days` for some
earlier purchase time `t ≤ now`. -/
theorem c7_grant_extension_amended :
    (∀ (now : Int) (cur : Option Int) (m : Int), 1 ≤ m →
        channel_sub_extend now cur m = grant_extend_spec now cur m) ∧
    (∀ now e m : Int, 1 ≤ m → e ≤ channel_sub_extend now (some e) m) ∧
    (∀ now e m : Int, 1 ≤ m → e ≤ now →
        channel_sub_extend now (some e) m = now + 2592000 * m) ∧
    (∀ t now : Int, t ≤ now → ch_sub_new_expiry t ≤ ch_sub_new_expiry now) := by
  refine ⟨?_, ?_, ?_, ?_⟩
  · intro now cur m hm
    unfold channel_sub_extend grant_extend_spec
    have hm0 : ¬(m ≤ 0) := by omega
    cases cur with
    | none => simp [hm0]
    | some e =>
      simp only [hm0, if_false, Option.getD]
      by_cases h : now < e
      · simp [h, max_eq_right (le_of_lt h)]
      · simp [h, max_eq_left (by omega : e ≤ now)]
  · intro now e m hm
    unfold channel_sub_extend
    have hm0 : ¬(m ≤ 0) := by omega
    simp only [hm0, if_false]
    by_cases h : now < e <;> simp [h] <;> nlinarith
  · intro now e m hm he
    unfold channel_sub_extend
    have hm0 : ¬(m ≤ 0) := by omega
    have h : ¬(now < e) := by omega
    simp [hm0, h]
  · intro t now h
    unfold ch_sub_new_expiry
    omega

theorem c7_grant_extension_amended_witness :
    (1 : Int) ≤ 2 ∧
      channel_sub_extend 1000 (some 5000) 2 = grant_extend_spec 1000 (some 5000) 2 :=
  ⟨by decide, c7_grant_extension_amended.1 1000 (some 5000) 2 (by decide)⟩

/-- C9 (implicit): `channel_sub_extend` coerces non-positive `months` to 1,
so a call with `months ≤ 0` behaves exactly like `months = 1`: the new
expiry is `max(now, current_expiry) + 30 days`; it is strictly later than
both `now` and any current expiry, hence never a no-op and never a
shortening. -/
theorem c9_nonpositive_months (now : Int) (cur : Option Int) (m : Int)
    (hm : m ≤ 0) :
    channel_sub_extend now cur m = channel_sub_extend now cur 1 ∧
      channel_sub_extend now cur m = grant_extend_spec now cur 1 ∧
      now < channel_sub_extend now cur m ∧
      (∀ e, cur = some e → e < channel_sub_extend now cur m) := by
  have h1 : channel_sub_extend now cur m = channel_sub_extend now cur 1 := by
    unfold channel_sub_extend
    simp [hm]
  have h2 : channel_sub_extend now cur 1 = grant_extend_spec now cur 1 := by
    unfold channel_sub_extend grant_extend_spec
    cases cur with
    | none => simp
    | some e =>
      simp only [Option.getD]
      by_cases h : now < e
      · simp [h, max_eq_right (le_of_lt h)]
      · simp [h, max_eq_left (by omega : e ≤ now)]
  refine ⟨h1, h1.trans h2, ?_, ?_⟩
  · rw [h1.trans h2]
    unfold grant_extend_spec
    have := le_max_left now (cur.getD now)
    omega
  · intro e he
    rw [h1.trans h2, he]
    unfold grant_extend_spec
    have : e ≤ max now e := le_max_right now e
    simp only [Option.getD]
    omega

theorem c9_nonpositive_months_witness :
    (0 : Int) ≤ 0 ∧
      (channel_sub_extend 100 (some 700) 0 = channel_sub_extend 100 (some 700) 1 ∧
        channel_sub_extend 100 (some 700) 0 = grant_extend_spec 100 (some 700) 1 ∧
        (100 : Int) < channel_sub_extend 100 (some 700) 0 ∧
        (∀ e, (some 700 : Option Int) = some e →
          e < channel_sub_extend 100 (some 700) 0)) :=
  ⟨le_refl 0, c9_nonpositive_months 100 (some 700) 0 (le_refl 0)⟩

/-! ## Claim C2: multi-claim vouchers (src/main3.py and src/main1.py) -/

inductive CStatus3 | active | finished | cancelled
deriving DecidableEq, Repr

/-- One row of the `checks` table of src/main3.py and src/main1.py
(multi-claim voucher). -/
structure MCheck3 where
  creator : Nat
  totalAmount : Rat
  perClaim : Rat
  maxClaims : Nat
  claimedCount : Nat
  passhash : Option Nat
  status : CStatus3
deriving DecidableEq, Repr

/-- The state a sequence of claims against one voucher acts on: the users
table, the voucher row, and its `check_claims` rows (claimant ids). -/
structure CState where
  users : List (Nat × Acct)
  check : MCheck3
  claims : List Nat
deriving Repr

/-- `claim_check_by_token` (src/main3.py:430, src/main1.py:272) for a known
token, returning the new state and the success flag.  Gates in source
order: non-active status; password (hash comparison); an existing
`check_claims` row for this user (`AlreadyClaimed`, rollback); the
re-checked `claimed_count >= max_claims` (`Exhausted`, which also commits a
transition to `finished`); otherwise credit `per_claim`, insert the claim
row, increment `claimed_count`, and mark `finished` when no claims are
left. -/
def claim_check_by_token (s : CState) (uid : Nat) (passHash : Option Nat) :
    CState × Bool :=
  if s.check.status ≠ .active then (s, false)
  else
    let ok : Bool :=
      match s.check.passhash, passHash with
      | none, _ => true
      | some _, none => false
      | some h, some p => p == h
    if ok then
      if uid ∈ s.claims then (s, false)
      else if s.check.maxClaims ≤ s.check.claimedCount then
        ({ s with check := { s.check with status := .finished } }, false)
      else
        ({ s with
            users := add_uwt s.users uid s.check.perClaim
            claims := s.claims ++ [uid]
            check := { s.check with
                       claimedCount := s.check.claimedCount + 1,
                       status := if s.check.maxClaims ≤ s.check.claimedCount + 1
                                 then .finished else s.check.status } },
         true)
    else (s, false)

/-- Run a sequence of claim calls `(claimant, password-hash)`, returning the
final state and the number of successful claims. -/
def run_claims (s : CState) : List (Nat × Option Nat) → CState × Nat
  | [] => (s, 0)
  | (uid, ph) :: rest =>
    let r := claim_check_by_token s uid ph
    let r2 := run_claims r.1 rest
    (r2.1, (if r.2 then 1 else 0) + r2.2)

theorem claim_step_max (s : CState) (uid : Nat) (ph : Option Nat) :
    (claim_check_by_token s uid ph).1.check.maxClaims = s.check.maxClaims := by
  unfold claim_check_by_token
  dsimp only
  repeat' split
  all_goals rfl

theorem claim_step_false (s : CState) (uid : Nat) (ph : Option Nat)
    (h : (claim_check_by_token s uid ph).2 = false) :
    (claim_check_by_token s uid ph).1.users = s.users ∧
      (claim_check_by_token s uid ph).1.claims = s.claims ∧
      (claim_check_by_token s uid ph).1.check.claimedCount =
        s.check.claimedCount := by
  unfold claim_check_by_token at h ⊢
  dsimp only at h ⊢
  repeat' split
  all_goals simp_all

theorem claim_step_true (s : CState) (uid : Nat) (ph : Option Nat)
    (h : (claim_check_by_token s uid ph).2 = true) :
    (claim_check_by_token s uid ph).1.users =
        add_uwt s.users uid s.check.perClaim ∧
      (claim_check_by_token s uid ph).1.claims = s.claims ++ [uid] ∧
      (claim_check_by_token s uid ph).1.check.claimedCount =
        s.check.claimedCount + 1 ∧
      uid ∉ s.claims ∧ s.check.status = .active ∧
      s.check.claimedCount < s.check.maxClaims ∧
      ((claim_check_by_token s uid ph).1.check.status = .finished ↔
        s.check.maxClaims ≤ s.check.claimedCount + 1) := by
  unfold claim_check_by_token at h ⊢
  dsimp only at h ⊢
  split at h
  · exact absurd h (by simp)
  · split at h
    · split at h
      · exact absurd h (by simp)
      · split at h
        · exact absurd h (by simp)
        · rename_i hact hok hnm hcap
          rw [if_neg hact, if_pos hok, if_neg hnm, if_neg hcap]
          refine ⟨rfl, rfl, rfl, hnm, not_not.mp hact, Nat.not_le.mp hcap, ?_⟩
          by_cases hfin : s.check.maxClaims ≤ s.check.claimedCount + 1
          · simp [hfin]
          · simp [hfin, not_not.mp hact]
    · exact absurd h (by simp)

/-- Invariant tying the claim rows to the counter. -/
def CInv (s : CState) : Prop :=
  s.claims.Nodup ∧ s.check.claimedCount = s.claims.length ∧
    s.check.claimedCount ≤ s.check.maxClaims

theorem claim_step_cinv (s : CState) (uid : Nat) (ph : Option Nat)
    (h : CInv s) : CInv (claim_check_by_token s uid ph).1 := by
  obtain ⟨h1, h2, h3⟩ := h
  cases hflag : (claim_check_by_token s uid ph).2 with
  | false =>
    obtain ⟨hu, hc, hn⟩ := claim_step_false s uid ph hflag
    exact ⟨hc ▸ h1, by rw [hn, hc]; exact h2, by rw [hn, claim_step_max]; exact h3⟩
  | true =>
    obtain ⟨hu, hc, hn, hmem, hact, hlt, hst⟩ := claim_step_true s uid ph hflag
    refine ⟨?_, ?_, ?_⟩
    · rw [hc]
      simp [List.nodup_append, h1, hmem]
    · rw [hn, hc, h2]
      simp
    · rw [hn, claim_step_max]
      omega

theorem run_claims_count :
    ∀ (l : List (Nat × Option Nat)) (s : CState), CInv s →
      CInv (run_claims s l).1 ∧
        (run_claims s l).1.check.claimedCount =
          s.check.claimedCount + (run_claims s l).2 ∧
        (run_claims s l).1.check.maxClaims = s.check.maxClaims := by
  intro l
  induction l with
  | nil => intro s h; exact ⟨h, by simp [run_claims], rfl⟩
  | cons p rest ih =>
    intro s h
    obtain ⟨uid, ph⟩ := p
    have hinv := claim_step_cinv s uid ph h
    obtain ⟨ih1, ih2, ih3⟩ := ih (claim_check_by_token s uid ph).1 hinv
    refine ⟨ih1, ?_, ?_⟩
    · show (run_claims _ rest).1.check.claimedCount = _
      rw [ih2]
      cases hflag : (claim_check_by_token s uid ph).2 with
      | false =>
        obtain ⟨_, _, hn⟩ := claim_step_false s uid ph hflag
        simp [run_claims, hflag, hn]
      | true =>
        obtain ⟨_, _, hn, _⟩ := claim_step_true s uid ph hflag
        simp [run_claims, hflag, hn]
        omega
    · show (run_claims _ rest).1.check.maxClaims = _
      rw [ih3, claim_step_max]

/-- C2: voucher claims are at-most-once per user and capacity-bounded.
(1) A claim by a user who already holds a claim row fails and leaves the
whole state unchanged.  (2) A claim when `claimed_count` has reached
`max_claims` fails with no funds moved and no claim row added (only the
status may flip to finished).  (3) A successful claim credits exactly
`per_claim` to the claimant, appends the claim row, increments
`claimed_count`, and sets the status to finished exactly when the new count
reaches `max_claims`; it can only happen for an active voucher with a free
slot and a first-time claimant.  (4) Over any sequence of claim calls
started from a fresh voucher (`claimed_count = 0`, no claim rows), the
number of successes never exceeds `max_claims`, equals the final
`claimed_count`, and the final claim rows are duplicate-free, so each user
succeeds at most once. -/
theorem c2_voucher_claims (s : CState) (uid : Nat) (ph : Option Nat)
    (l : List (Nat × Option Nat))
    (hfresh : s.check.claimedCount = 0 ∧ s.claims = []) :
    (uid ∈ s.claims → claim_check_by_token s uid ph = (s, false)) ∧
    (s.check.maxClaims ≤ s.check.claimedCount →
      (claim_check_by_token s uid ph).2 = false ∧
        (claim_check_by_token s uid ph).1.users = s.users ∧
        (claim_check_by_token s uid ph).1.claims = s.claims ∧
        (claim_check_by_token s uid ph).1.check.claimedCount =
          s.check.claimedCount) ∧
    ((claim_check_by_token s uid ph).2 = true →
      (claim_check_by_token s uid ph).1.users =
          add_uwt s.users uid s.check.perClaim ∧
        (claim_check_by_token s uid ph).1.claims = s.claims ++ [uid] ∧
        (claim_check_by_token s uid ph).1.check.claimedCount =
          s.check.claimedCount + 1 ∧
        uid ∉ s.claims ∧ s.check.status = .active ∧
        s.check.claimedCount < s.check.maxClaims ∧
        ((claim_check_by_token s uid ph).1.check.status = .finished ↔
          s.check.maxClaims ≤ s.check.claimedCount + 1)) ∧
    ((run_claims s l).2 ≤ s.check.maxClaims ∧
      (run_claims s l).1.check.claimedCount = (run_claims s l).2 ∧
      (run_claims s l).1.claims.Nodup) := by
  obtain ⟨hc0, hcl⟩ := hfresh
  refine ⟨?_, ?_, ?_, ?_⟩
  · intro hmem
    unfold claim_check_by_token
    dsimp only
    split
    · rfl
    · simp only [if_pos hmem, ite_self]
  · intro hmax
    have hflag : (claim_check_by_token s uid ph).2 = false := by
      cases hflag : (claim_check_by_token s uid ph).2 with
      | false => rfl
      | true =>
        obtain ⟨_, _, _, _, _, hlt, _⟩ := claim_step_true s uid ph hflag
        omega
    exact ⟨hflag, claim_step_false s uid ph hflag⟩
  · exact claim_step_true s uid ph
  · have hinv : CInv s := by
      refine ⟨?_, ?_, ?_⟩ <;> simp [hcl, hc0]
    obtain ⟨⟨hn1, hn2, hn3⟩, hcount, hmax⟩ := run_claims_count l s hinv
    rw [hc0] at hcount
    simp only [Nat.zero_add] at hcount
    exact ⟨by omega, hcount, hn1⟩

/-- A fresh two-slot voucher paying 5 UWT per claim. -/
def c2_demo_state : CState :=
  { users := [], check := ⟨1, 10, 5, 2, 0, none, .active⟩, claims := [] }

/-- User 2 claims twice, then users 3 and 4 claim once each. -/
def c2_demo_calls : List (Nat × Option Nat) :=
  [(2, none), (2, none), (3, none), (4, none)]

theorem c2_voucher_claims_witness :
    (c2_demo_state.check.claimedCount = 0 ∧ c2_demo_state.claims = []) ∧
    ((run_claims c2_demo_state c2_demo_calls).2 ≤
        c2_demo_state.check.maxClaims ∧
      (run_claims c2_demo_state c2_demo_calls).1.check.claimedCount =
        (run_claims c2_demo_state c2_demo_calls).2 ∧
      (run_claims c2_demo_state c2_demo_calls).1.claims.Nodup) :=
  ⟨⟨rfl, rfl⟩,
   (c2_voucher_claims c2_demo_state 2 none c2_demo_calls ⟨rfl, rfl⟩).2.2.2⟩

/-! ## Claim C3: invoice pay-once -/

/-- `pay_bill_by_token` (src/main3.py:513): like main.py's `pay_bill_uwt`,
but the insufficient-funds check carries the `1e-12` float tolerance
(`uwt + 1e-12 < amount` fails), and the conditional status transition is
issued first inside the transaction (sequentially equivalent order). -/
def pay_bill_by_token (s : WState) (bid payer : Nat) : WState × Bool :=
  match lookupA s.bills bid with
  | none => (s, false)
  | some b =>
    if b.status ≠ .active then (s, false)
    else if b.creator = payer then (s, false)
    else if (get_balances s.users payer).uwt + eps < b.amount then (s, false)
    else
      ({ s with users := add_uwt (add_uwt s.users payer (-b.amount)) b.creator b.amount
                bills := updA bid (fun bb => { bb with status := .paid, paidBy := some payer }) s.bills },
       true)

/-- Run a sequence of pay calls by the given payers on one bill, through the
given pay function (the main.py or the main3.py variant), counting
successes. -/
def run_pays (pay : WState → Nat → Nat → WState × Bool) (bid : Nat) :
    WState → List Nat → WState × Nat
  | s, [] => (s, 0)
  | s, p :: rest =>
    let r := pay s bid p
    let r2 := run_pays pay bid r.1 rest
    (r2.1, (if r.2 then 1 else 0) + r2.2)

theorem pay_uwt_false_id (s : WState) (bid payer : Nat)
    (h : (pay_bill_uwt s bid payer).2 = false) :
    (pay_bill_uwt s bid payer).1 = s := by
  unfold pay_bill_uwt at h ⊢
  repeat' split at h
  all_goals simp_all

theorem pay_uwt_not_active (s : WState) (bid payer : Nat) (b : MBill)
    (hlk : lookupA s.bills bid = some b) (hst : b.status ≠ .active) :
    pay_bill_uwt s bid payer = (s, false) := by
  unfold pay_bill_uwt
  rw [hlk]
  simp only [if_pos hst]

theorem pay_uwt_success (s : WState) (bid payer : Nat)
    (h : (pay_bill_uwt s bid payer).2 = true) :
    ∃ b, lookupA s.bills bid = some b ∧ b.status = .active ∧
      b.creator ≠ payer ∧ b.amount ≤ (get_balances s.users payer).uwt ∧
      (pay_bill_uwt s bid payer).1.users =
        add_uwt (add_uwt s.users payer (-b.amount)) b.creator b.amount ∧
      lookupA (pay_bill_uwt s bid payer).1.bills bid =
        some { b with status := .paid, paidBy := some payer } := by
  unfold pay_bill_uwt at h ⊢
  cases hlk : lookupA s.bills bid with
  | none =>
    rw [hlk] at h
    simp at h
  | some b =>
    rw [hlk] at h
    dsimp only at h ⊢
    split at h
    · exact absurd h (by simp)
    · split at h
      · exact absurd h (by simp)
      · split at h
        · exact absurd h (by simp)
        · rename_i hact hself hbal
          refine ⟨b, rfl, not_not.mp hact, hself, le_of_not_lt hbal, ?_, ?_⟩
          · rw [if_neg hact, if_neg hself, if_neg hbal]
          · rw [if_neg hact, if_neg hself, if_neg hbal]
            exact lookupA_updA_self bid _ s.bills b hlk

theorem pay_uwt_succeeds (s : WState) (bid payer : Nat) (b : MBill)
    (hlk : lookupA s.bills bid = some b) (hact : b.status = .active)
    (hself : b.creator ≠ payer)
    (hbal : b.amount ≤ (get_balances s.users payer).uwt) :
    (pay_bill_uwt s bid payer).2 = true := by
  unfold pay_bill_uwt
  rw [hlk]
  dsimp only
  rw [if_neg (by simp [hact]), if_neg hself, if_neg (not_lt.mpr hbal)]

theorem pay_tok_false_id (s : WState) (bid payer : Nat)
    (h : (pay_bill_by_token s bid payer).2 = false) :
    (pay_bill_by_token s bid payer).1 = s := by
  unfold pay_bill_by_token at h ⊢
  repeat' split at h
  all_goals simp_all

theorem pay_tok_not_active (s : WState) (bid payer : Nat) (b : MBill)
    (hlk : lookupA s.bills bid = some b) (hst : b.status ≠ .active) :
    pay_bill_by_token s bid payer = (s, false) := by
  unfold pay_bill_by_token
  rw [hlk]
  simp only [if_pos hst]

theorem pay_tok_success (s : WState) (bid payer : Nat)
    (h : (pay_bill_by_token s bid payer).2 = true) :
    ∃ b, lookupA s.bills bid = some b ∧ b.status = .active ∧
      b.creator ≠ payer ∧ b.amount ≤ (get_balances s.users payer).uwt + eps ∧
      (pay_bill_by_token s bid payer).1.users =
        add_uwt (add_uwt s.users payer (-b.amount)) b.creator b.amount ∧
      lookupA (pay_bill_by_token s bid payer).1.bills bid =
        some { b with status := .paid, paidBy := some payer } := by
  unfold pay_bill_by_token at h ⊢
  cases hlk : lookupA s.bills bid with
  | none =>
    rw [hlk] at h
    simp at h
  | some b =>
    rw [hlk] at h
    dsimp only at h ⊢
    split at h
    · exact absurd h (by simp)
    · split at h
      · exact absurd h (by simp)
      · split at h
        · exact absurd h (by simp)
        · rename_i hact hself hbal
          refine ⟨b, rfl, not_not.mp hact, hself, le_of_not_lt hbal, ?_, ?_⟩
          · rw [if_neg hact, if_neg hself, if_neg hbal]
          · rw [if_neg hact, if_neg hself, if_neg hbal]
            exact lookupA_updA_self bid _ s.bills b hlk

theorem pay_tok_succeeds (s : WState) (bid payer : Nat) (b : MBill)
    (hlk : lookupA s.bills bid = some b) (hact : b.status = .active)
    (hself : b.creator ≠ payer)
    (hbal : b.amount ≤ (get_balances s.users payer).uwt + eps) :
    (pay_bill_by_token s bid payer).2 = true := by
  unfold pay_bill_by_token
  rw [hlk]
  dsimp only
  rw [if_neg (by simp [hact]), if_neg hself, if_neg (not_lt.mpr hbal)]

/-- Generic pay-once argument: with a pay function whose failures have no
effect, which always fails on a non-active bill, and whose successes leave
the bill paid, any sequence of pay calls on one bill has at most one
success. -/
theorem run_pays_at_most_once
    (pay : WState → Nat → Nat → WState × Bool) (bid : Nat)
    (hpaid : ∀ s p b, lookupA s.bills bid = some b → b.status ≠ .active →
      pay s bid p = (s, false))
    (hsucc : ∀ s p, (pay s bid p).2 = true →
      ∃ b, lookupA (pay s bid p).1.bills bid = some b ∧ b.status = .paid) :
    ∀ (l : List Nat) (s : WState), (run_pays pay bid s l).2 ≤ 1 := by
  have hdead : ∀ (l : List Nat) (s : WState) (b : MBill),
      lookupA s.bills bid = some b → b.status ≠ .active →
      run_pays pay bid s l = (s, 0) := by
    intro l
    induction l with
    | nil => intro s b _ _; rfl
    | cons p rest ih =>
      intro s b hlk hst
      have hp := hpaid s p b hlk hst
      unfold run_pays
      rw [hp]
      simp only
      rw [ih s b hlk hst]
      simp
  intro l
  induction l with
  | nil => intro s; simp [run_pays]
  | cons p rest ih =>
    intro s
    unfold run_pays
    cases hflag : (pay s bid p).2 with
    | false =>
      simp only [hflag, if_false]
      have := ih (pay s bid p).1
      simpa using this
    | true =>
      simp only [hflag, if_true]
      obtain ⟨b, hlk, hst⟩ := hsucc s p hflag
      rw [hdead rest (pay s bid p).1 b hlk (by simp [hst])]
      simp

/-- The concrete state refuting C3 as stated for the main3.py variant: bill
1 over 1 UWT created by user 7; user 5 holds `1 - 1e-13` UWT, which is
below the bill amount. -/
def c3_cex_state : WState :=
  { initState with
    users := [(5, ⟨1 - 1/10000000000000, 0⟩)]
    bills := [(1, ⟨7, 1, .active, none⟩)] }

/-- C3, counterexample: the claim says a pay call fails whenever the payer's
balance is below the amount, with balances unchanged.  In the main3.py
variant (`pay_bill_by_token`) the check has `1e-12` slack, so payer 5 with
balance `1 - 1e-13 < 1` successfully pays the 1-UWT bill and ends with a
negative balance. -/
theorem c3_pay_once_counterexample :
    (get_balances c3_cex_state.users 5).uwt < 1 ∧
      (pay_bill_by_token c3_cex_state 1 5).2 = true ∧
      (get_balances (pay_bill_by_token c3_cex_state 1 5).1.users 5).uwt < 0 := by
  refine ⟨?_, ?_, ?_⟩ <;>
    norm_num [c3_cex_state, initState, pay_bill_by_token, get_balances,
      lookupA, add_uwt, add_rub, adjBal, updA, eps]

/-- C3, amended: pay on an invoice fails with the whole state unchanged on
an unknown token, a non-active status, self-pay, or insufficient funds —
where "insufficient" is `balance < amount` in main.py's `pay_bill_uwt` but
`balance + 1e-12 < amount` in main3.py's `pay_bill_by_token` (a payer short
by at most `1e-12` succeeds there).  A call succeeds exactly when all four
conditions pass, and then it performs the single active→paid transition
together with debiting the payer and crediting the creator by exactly
`amount` in one atomic unit.  Hence over any sequence of pay calls on the
same invoice, at most one succeeds (exactly one when some call meets the
conditions), and exactly one fund transfer occurs. -/
theorem c3_pay_once_amended :
    (∀ s bid payer, lookupA s.bills bid = none →
        pay_bill_uwt s bid payer = (s, false) ∧
        pay_bill_by_token s bid payer = (s, false)) ∧
    (∀ s bid payer b, lookupA s.bills bid = some b → b.status ≠ .active →
        pay_bill_uwt s bid payer = (s, false) ∧
        pay_bill_by_token s bid payer = (s, false)) ∧
    (∀ s bid payer b, lookupA s.bills bid = some b → b.creator = payer →
        pay_bill_uwt s bid payer = (s, false) ∧
        pay_bill_by_token s bid payer = (s, false)) ∧
    (∀ s bid payer b, lookupA s.bills bid = some b →
        (get_balances s.users payer).uwt < b.amount →
        pay_bill_uwt s bid payer = (s, false)) ∧
    (∀ s bid payer b, lookupA s.bills bid = some b →
        (get_balances s.users payer).uwt + eps < b.amount →
        pay_bill_by_token s bid payer = (s, false)) ∧
    (∀ s bid payer, (pay_bill_uwt s bid payer).2 = true ↔
        ∃ b, lookupA s.bills bid = some b ∧ b.status = .active ∧
          b.creator ≠ payer ∧ b.amount ≤ (get_balances s.users payer).uwt) ∧
    (∀ s bid payer, (pay_bill_by_token s bid payer).2 = true ↔
        ∃ b, lookupA s.bills bid = some b ∧ b.status = .active ∧
          b.creator ≠ payer ∧
          b.amount ≤ (get_balances s.users payer).uwt + eps) ∧
    (∀ s bid payer, (pay_bill_uwt s bid payer).2 = true →
        ∃ b, lookupA s.bills bid = some b ∧
          (pay_bill_uwt s bid payer).1.users =
            add_uwt (add_uwt s.users payer (-b.amount)) b.creator b.amount ∧
          lookupA (pay_bill_uwt s bid payer).1.bills bid =
            some { b with status := .paid, paidBy := some payer }) ∧
    (∀ s bid payer, (pay_bill_by_token s bid payer).2 = true →
        ∃ b, lookupA s.bills bid = some b ∧
          (pay_bill_by_token s bid payer).1.users =
            add_uwt (add_uwt s.users payer (-b.amount)) b.creator b.amount ∧
          lookupA (pay_bill_by_token s bid payer).1.bills bid =
            some { b with status := .paid, paidBy := some payer }) ∧
    (∀ bid l s, (run_pays pay_bill_uwt bid s l).2 ≤ 1) ∧
    (∀ bid l s, (run_pays pay_bill_by_token bid s l).2 ≤ 1) := by
  refine ⟨?_, ?_, ?_, ?_, ?_, ?_, ?_, ?_, ?_, ?_, ?_⟩
  · intro s bid payer h
    refine ⟨?_, ?_⟩
    · unfold pay_bill_uwt
      rw [h]
    · unfold pay_bill_by_token
      rw [h]
  · intro s bid payer b hlk hst
    exact ⟨pay_uwt_not_active s bid payer b hlk hst,
      pay_tok_not_active s bid payer b hlk hst⟩
  · intro s bid payer b hlk hself
    refine ⟨?_, ?_⟩
    · unfold pay_bill_uwt
      rw [hlk]
      by_cases hst : b.status ≠ .active
      · simp only [if_pos hst]
      · simp only [if_neg hst, if_pos hself]
    · unfold pay_bill_by_token
      rw [hlk]
      by_cases hst : b.status ≠ .active
      · simp only [if_pos hst]
      · simp only [if_neg hst, if_pos hself]
  · intro s bid payer b hlk hbal
    unfold pay_bill_uwt
    rw [hlk]
    by_cases hst : b.status ≠ .active
    · simp only [if_pos hst]
    · by_cases hself : b.creator = payer
      · simp only [if_neg hst, if_pos hself]
      · simp only [if_neg hst, if_neg hself, if_pos hbal]
  · intro s bid payer b hlk hbal
    unfold pay_bill_by_token
    rw [hlk]
    by_cases hst : b.status ≠ .active
    · simp only [if_pos hst]
    · by_cases hself : b.creator = payer
      · simp only [if_neg hst, if_pos hself]
      · simp only [if_neg hst, if_neg hself, if_pos hbal]
  · intro s bid payer
    constructor
    · intro h
      obtain ⟨b, h1, h2, h3, h4, _⟩ := pay_uwt_success s bid payer h
      exact ⟨b, h1, h2, h3, h4⟩
    · rintro ⟨b, h1, h2, h3, h4⟩
      exact pay_uwt_succeeds s bid payer b h1 h2 h3 h4
  · intro s bid payer
    constructor
    · intro h
      obtain ⟨b, h1, h2, h3, h4, _⟩ := pay_tok_success s bid payer h
      exact ⟨b, h1, h2, h3, h4⟩
    · rintro ⟨b, h1, h2, h3, h4⟩
      exact pay_tok_succeeds s bid payer b h1 h2 h3 h4
  · intro s bid payer h
    obtain ⟨b, h1, _, _, _, h5, h6⟩ := pay_uwt_success s bid payer h
    exact ⟨b, h1, h5, h6⟩
  · intro s bid payer h
    obtain ⟨b, h1, _, _, _, h5, h6⟩ := pay_tok_success s bid payer h
    exact ⟨b, h1, h5, h6⟩
  · intro bid l s
    refine run_pays_at_most_once pay_bill_uwt bid ?_ ?_ l s
    · exact fun s p b => pay_uwt_not_active s bid p b
    · intro s p h
      obtain ⟨b, _, _, _, _, _, h6⟩ := pay_uwt_success s bid p h
      exact ⟨_, h6, rfl⟩
  · intro bid l s
    refine run_pays_at_most_once pay_bill_by_token bid ?_ ?_ l s
    · exact fun s p b => pay_tok_not_active s bid p b
    · intro s p h
      obtain ⟨b, _, _, _, _, _, h6⟩ := pay_tok_success s bid p h
      exact ⟨_, h6, rfl⟩

/-! ## Claims C6 and C10: the giveaway sweep -/

/-- The winner choice of `finish_due_giveaways` for one giveaway:
`secrets.choice(participants)` when there are participants, else `None`. -/
def winnerOf (pick : List Nat → Nat) (gp : List (Nat × Nat)) (gid : Nat) :
    Option Nat :=
  if (partsOf gp gid).isEmpty then none else some (pick (partsOf gp gid))

/-- The credit a finalized event carries: the full prize to the winner, or
to the creator when there was no winner. -/
def creditEvent (u : List (Nat × Acct)) (e : GEvent) : List (Nat × Acct) :=
  add_uwt u (e.winner.getD e.creator) e.amount

theorem lookupA_mem {β : Type} (key : Nat) (v : β) :
    ∀ l : List (Nat × β), lookupA l key = some v → (key, v) ∈ l := by
  intro l
  induction l with
  | nil => intro h; simp [lookupA] at h
  | cons p t ih =>
    obtain ⟨k, w⟩ := p
    intro h
    by_cases hk : k = key
    · simp [lookupA, hk] at h
      subst hk
      subst h
      exact List.mem_cons_self _ _
    · simp [lookupA, hk] at h
      exact List.mem_cons_of_mem _ (ih h)

theorem finalize_apply_event (pick : List Nat → Nat) (s : WState) (gid : Nat)
    (g : MGiveaway) :
    (finalize_apply pick s gid g).2 =
      ⟨gid, winnerOf pick s.gparts gid, g.amount, g.creator⟩ := rfl

theorem finalize_apply_users (pick : List Nat → Nat) (s : WState) (gid : Nat)
    (g : MGiveaway) :
    (finalize_apply pick s gid g).1.users =
      creditEvent s.users ⟨gid, winnerOf pick s.gparts gid, g.amount, g.creator⟩ := rfl

theorem finalize_apply_gparts (pick : List Nat → Nat) (s : WState) (gid : Nat)
    (g : MGiveaway) : (finalize_apply pick s gid g).1.gparts = s.gparts := rfl

theorem finalize_apply_lookup_self (pick : List Nat → Nat) (s : WState)
    (gid : Nat) (g : MGiveaway) (hlk : lookupA s.giveaways gid = some g) :
    lookupA (finalize_apply pick s gid g).1.giveaways gid =
      some { g with status := .finished, winner := winnerOf pick s.gparts gid } := by
  unfold finalize_apply
  dsimp only
  exact lookupA_updA_self gid _ s.giveaways g hlk

theorem finalize_fold_gparts (now : Int) (pick : List Nat → Nat) :
    ∀ (rows : List (Nat × MGiveaway)) (st : WState × List GEvent),
      (rows.foldl (finalize_one now pick) st).1.gparts = st.1.gparts := by
  intro rows
  induction rows with
  | nil => intro st; rfl
  | cons p t ih =>
    intro st
    simp only [List.foldl_cons]
    rw [ih]
    obtain ⟨gid, g⟩ := p
    cases hend : g.endAt with
    | none => rw [finalize_one_skip now pick st (gid, g) (Or.inl hend)]
    | some tm =>
      by_cases hdue : now < tm
      · rw [finalize_one_skip now pick st (gid, g) (Or.inr ⟨tm, hend, hdue⟩)]
      · rw [finalize_one_due now pick st gid g tm hend hdue]
        exact finalize_apply_gparts pick st.1 gid g

/-- The fold appends a block of new events whose credits are exactly the
balance mutations performed, and whose ids come from the processed rows. -/
theorem finalize_fold_evs (now : Int) (pick : List Nat → Nat) :
    ∀ (rows : List (Nat × MGiveaway)) (st : WState × List GEvent),
      ∃ new, (rows.foldl (finalize_one now pick) st).2 = st.2 ++ new ∧
        (rows.foldl (finalize_one now pick) st).1.users =
          new.foldl creditEvent st.1.users ∧
        (∀ e ∈ new, e.gid ∈ rows.map Prod.fst) := by
  intro rows
  induction rows with
  | nil => intro st; exact ⟨[], by simp, rfl, by simp⟩
  | cons p t ih =>
    intro st
    obtain ⟨gid, g⟩ := p
    simp only [List.foldl_cons]
    have hskip : ∀ h : g.endAt = none ∨ ∃ tm, g.endAt = some tm ∧ now < tm,
        ∃ new, (t.foldl (finalize_one now pick) (finalize_one now pick st (gid, g))).2 =
            st.2 ++ new ∧
          (t.foldl (finalize_one now pick) (finalize_one now pick st (gid, g))).1.users =
            new.foldl creditEvent st.1.users ∧
          (∀ e ∈ new, e.gid ∈ ((gid, g) :: t).map Prod.fst) := by
      intro h
      rw [finalize_one_skip now pick st (gid, g) h]
      obtain ⟨new, h1, h2, h3⟩ := ih st
      exact ⟨new, h1, h2, fun e he => by
        simp only [List.map_cons]
        exact List.mem_cons_of_mem _ (h3 e he)⟩
    cases hend : g.endAt with
    | none => exact hskip (Or.inl hend)
    | some tm =>
      by_cases hdue : now < tm
      · exact hskip (Or.inr ⟨tm, hend, hdue⟩)
      · rw [finalize_one_due now pick st gid g tm hend hdue]
        obtain ⟨new, h1, h2, h3⟩ :=
          ih ((finalize_apply pick st.1 gid g).1,
              st.2 ++ [(finalize_apply pick st.1 gid g).2])
        refine ⟨(finalize_apply pick st.1 gid g).2 :: new, ?_, ?_, ?_⟩
        · rw [h1]
          simp
        · rw [h2, finalize_apply_users, finalize_apply_event]
          rfl
        · intro e he
          rcases List.mem_cons.mp he with he | he
          · rw [he, finalize_apply_event]
            simp
          · simp only [List.map_cons]
            exact List.mem_cons_of_mem _ (h3 e he)

/-- Rows whose key is only carried by skippable snapshot entries are left
untouched by the fold, and no event is emitted for them. -/
theorem finalize_fold_untouched (now : Int) (pick : List Nat → Nat) :
    ∀ (rows : List (Nat × MGiveaway)) (st : WState × List GEvent)
      (gid : Nat) (g : MGiveaway),
      lookupA st.1.giveaways gid = some g →
      (∀ p ∈ rows, p.1 = gid →
        p.2.endAt = none ∨ ∃ tm, p.2.endAt = some tm ∧ now < tm) →
      lookupA (rows.foldl (finalize_one now pick) st).1.giveaways gid = some g ∧
        (∀ e ∈ (rows.foldl (finalize_one now pick) st).2,
          e ∈ st.2 ∨ e.gid ≠ gid) := by
  intro rows
  induction rows with
  | nil => intro st gid g hlk _; exact ⟨hlk, fun e he => Or.inl he⟩
  | cons p t ih =>
    intro st gid g hlk hrows
    obtain ⟨k, gv⟩ := p
    simp only [List.foldl_cons]
    by_cases hk : k = gid
    · subst hk
      have hsk := hrows (k, gv) (List.mem_cons_self _ _) rfl
      rw [finalize_one_skip now pick st (k, gv) hsk]
      exact ih st k g hlk (fun q hq => hrows q (List.mem_cons_of_mem _ hq))
    · cases hend : gv.endAt with
      | none =>
        rw [finalize_one_skip now pick st (k, gv) (Or.inl hend)]
        exact ih st gid g hlk (fun q hq => hrows q (List.mem_cons_of_mem _ hq))
      | some tm =>
        by_cases hdue : now < tm
        · rw [finalize_one_skip now pick st (k, gv) (Or.inr ⟨tm, hend, hdue⟩)]
          exact ih st gid g hlk (fun q hq => hrows q (List.mem_cons_of_mem _ hq))
        · rw [finalize_one_due now pick st k gv tm hend hdue]
          have hlk' : lookupA (finalize_apply pick st.1 k gv).1.giveaways gid =
              some g := by
            rw [finalize_apply_lookup_ne pick st.1 k gv gid (fun h => hk h.symm)]
            exact hlk
          obtain ⟨h1, h2⟩ := ih ((finalize_apply pick st.1 k gv).1,
            st.2 ++ [(finalize_apply pick st.1 k gv).2]) gid g hlk'
            (fun q hq => hrows q (List.mem_cons_of_mem _ hq))
          refine ⟨h1, ?_⟩
          intro e he
          rcases h2 e he with he2 | he2
          · rcases List.mem_append.mp he2 with he3 | he3
            · exact Or.inl he3
            · right
              have : e = (finalize_apply pick st.1 k gv).2 := by simpa using he3
              rw [this, finalize_apply_event]
              exact fun hEq => hk hEq
          · exact Or.inr he2

/-- The finished version of a giveaway row as written by the sweep. -/
def gFinished (pick : List Nat → Nat) (gp : List (Nat × Nat)) (gid : Nat)
    (g : MGiveaway) : MGiveaway :=
  { g with status := .finished, winner := winnerOf pick gp gid }

/-- A due active snapshot row is finalized exactly once by the fold: its
table row becomes finished with the winner recorded, and exactly one
finalized event for it is appended. -/
theorem finalize_fold_finalizes (now : Int) (pick : List Nat → Nat) :
    ∀ (rows : List (Nat × MGiveaway)) (st : WState × List GEvent)
      (gid : Nat) (g : MGiveaway) (tm : Int),
      (rows.map Prod.fst).Nodup →
      (gid, g) ∈ rows →
      lookupA st.1.giveaways gid = some g →
      g.endAt = some tm → tm ≤ now →
      lookupA (rows.foldl (finalize_one now pick) st).1.giveaways gid =
        some (gFinished pick st.1.gparts gid g) ∧
      ∃ new, (rows.foldl (finalize_one now pick) st).2 = st.2 ++ new ∧
        (⟨gid, winnerOf pick st.1.gparts gid, g.amount, g.creator⟩ : GEvent) ∈ new ∧
        new.countP (fun e => e.gid == gid) = 1 := by
  intro rows
  induction rows with
  | nil => intro st gid g tm _ hmem; simp at hmem
  | cons p t ih =>
    intro st gid g tm hnd hmem hlk hend hdue
    obtain ⟨k, gv⟩ := p
    have hnd' : k ∉ t.map Prod.fst ∧ (t.map Prod.fst).Nodup := by simpa using hnd
    simp only [List.foldl_cons]
    by_cases hkid : k = gid
    · have hgv : gv = g := by
        rcases List.mem_cons.mp hmem with hhead | htail
        · exact (congrArg Prod.snd hhead).symm
        · exact absurd (List.mem_map.mpr ⟨(gid, g), htail, rfl⟩) (hkid ▸ hnd'.1)
      rw [hkid, hgv]
      have hgidnot : gid ∉ t.map Prod.fst := hkid ▸ hnd'.1
      rw [finalize_one_due now pick st gid g tm hend (by omega)]
      have hrow : lookupA (finalize_apply pick st.1 gid g).1.giveaways gid =
          some (gFinished pick st.1.gparts gid g) :=
        finalize_apply_lookup_self pick st.1 gid g hlk
      obtain ⟨hlkF, _⟩ := finalize_fold_untouched now pick t
        ((finalize_apply pick st.1 gid g).1,
          st.2 ++ [(finalize_apply pick st.1 gid g).2])
        gid _ hrow
        (fun q hq hqk => absurd (hqk ▸ List.mem_map.mpr ⟨q, hq, rfl⟩) hgidnot)
      obtain ⟨new', he1, _, he3⟩ := finalize_fold_evs now pick t
        ((finalize_apply pick st.1 gid g).1,
          st.2 ++ [(finalize_apply pick st.1 gid g).2])
      refine ⟨hlkF, (finalize_apply pick st.1 gid g).2 :: new', ?_, ?_, ?_⟩
      · rw [he1]
        simp
      · rw [finalize_apply_event]
        exact List.mem_cons_self _ _
      · rw [List.countP_cons]
        have hone : (fun e => e.gid == gid) (finalize_apply pick st.1 gid g).2 = true := by
          rw [finalize_apply_event]
          simp
        rw [List.countP_eq_zero.mpr ?_]
        · simp [hone]
        · intro e he
          have hmem2 := he3 e he
          simp only [beq_iff_eq]
          intro hEq
          exact hgidnot (hEq ▸ hmem2)
    · have htail : (gid, g) ∈ t := by
        rcases List.mem_cons.mp hmem with hhead | htail
        · exact absurd (congrArg Prod.fst hhead).symm hkid
        · exact htail
      have hstep : ∀ st' : WState × List GEvent,
          lookupA st'.1.giveaways gid = some g →
          st'.1.gparts = st.1.gparts →
          (st'.2 = st.2 ∨ ∃ ev : GEvent, st'.2 = st.2 ++ [ev] ∧ ev.gid = k) →
          lookupA (t.foldl (finalize_one now pick) st').1.giveaways gid =
            some (gFinished pick st.1.gparts gid g) ∧
          ∃ new, (t.foldl (finalize_one now pick) st').2 = st.2 ++ new ∧
            (⟨gid, winnerOf pick st.1.gparts gid, g.amount, g.creator⟩ : GEvent) ∈ new ∧
            new.countP (fun e => e.gid == gid) = 1 := by
        intro st' hlk' hgp hev
        obtain ⟨ih1, new, ih2, ih3, ih4⟩ :=
          ih st' gid g tm hnd'.2 htail hlk' hend hdue
        rw [hgp] at ih1 ih3
        rcases hev with hev | ⟨ev, hev, hevk⟩
        · rw [hev] at ih2
          exact ⟨ih1, new, ih2, ih3, ih4⟩
        · refine ⟨ih1, ev :: new, ?_, List.mem_cons_of_mem _ ih3, ?_⟩
          · rw [ih2, hev]
            simp
          · rw [List.countP_cons]
            have hev0 : (fun e => e.gid == gid) ev = false := by
              simp [hevk, hkid]
            simp [hev0, ih4]
      cases hend2 : gv.endAt with
      | none =>
        rw [finalize_one_skip now pick st (k, gv) (Or.inl hend2)]
        exact hstep st hlk rfl (Or.inl rfl)
      | some tm2 =>
        by_cases hdue2 : now < tm2
        · rw [finalize_one_skip now pick st (k, gv) (Or.inr ⟨tm2, hend2, hdue2⟩)]
          exact hstep st hlk rfl (Or.inl rfl)
        · rw [finalize_one_due now pick st k gv tm2 hend2 hdue2]
          refine hstep _ ?_ (finalize_apply_gparts pick st.1 k gv) ?_
          · rw [finalize_apply_lookup_ne pick st.1 k gv gid (fun h => hkid h.symm)]
            exact hlk
          · refine Or.inr ⟨(finalize_apply pick st.1 k gv).2, rfl, ?_⟩
            rw [finalize_apply_event]

/-- Events produced by the fold all satisfy a property that holds of the
finalization event of every due snapshot row. -/
theorem finalize_fold_evs_prop (now : Int) (pick : List Nat → Nat)
    (P : GEvent → Prop) :
    ∀ (rows : List (Nat × MGiveaway)) (st : WState × List GEvent),
      (∀ e ∈ st.2, P e) →
      (∀ p ∈ rows, ∀ tm : Int, p.2.endAt = some tm → tm ≤ now →
        P ⟨p.1, winnerOf pick st.1.gparts p.1, p.2.amount, p.2.creator⟩) →
      ∀ e ∈ (rows.foldl (finalize_one now pick) st).2, P e := by
  intro rows
  induction rows with
  | nil => intro st h _ e he; exact h e he
  | cons p t ih =>
    intro st hst hrows
    obtain ⟨k, gv⟩ := p
    simp only [List.foldl_cons]
    cases hend : gv.endAt with
    | none =>
      rw [finalize_one_skip now pick st (k, gv) (Or.inl hend)]
      exact ih st hst (fun q hq => hrows q (List.mem_cons_of_mem _ hq))
    | some tm =>
      by_cases hdue : now < tm
      · rw [finalize_one_skip now pick st (k, gv) (Or.inr ⟨tm, hend, hdue⟩)]
        exact ih st hst (fun q hq => hrows q (List.mem_cons_of_mem _ hq))
      · rw [finalize_one_due now pick st k gv tm hend hdue]
        refine ih _ ?_ ?_
        · intro e he
          rcases List.mem_append.mp he with he | he
          · exact hst e he
          · have : e = (finalize_apply pick st.1 k gv).2 := by simpa using he
            rw [this, finalize_apply_event]
            exact hrows (k, gv) (List.mem_cons_self _ _) tm hend (by omega)
        · intro q hq tm2 h1 h2
          rw [finalize_apply_gparts]
          exact hrows q (List.mem_cons_of_mem _ hq) tm2 h1 h2

/-- C6: giveaway finalization, exactly once.  For a sweep
(`finish_due_giveaways`) over a well-keyed state with a winner choice that
picks from its input list: (1) every active giveaway whose parseable
expiry has passed gets its row set to finished with the winner recorded —
a participant when there are participants (a member of the current
participant list), `none` (creator refund) otherwise — and exactly one
finalized event for it is emitted, carrying the full prize; (2) the
resulting balances are exactly the old balances with, per emitted event,
the full prize credited to the single beneficiary (the winner if one was
picked, else the creator) — never both, never neither; every event comes
from an active due giveaway; (3) re-invoking the sweep (any clock, any
choice function) is a no-op for every giveaway that is no longer active:
its row is untouched and no event is emitted for it. -/
theorem c6_giveaway_finalization (s : WState) (now now2 : Int)
    (pick pick2 : List Nat → Nat) (hk : GwKeysOk s)
    (hpick : ∀ l : List Nat, l ≠ [] → pick l ∈ l) :
    (∀ gid g tm, lookupA s.giveaways gid = some g → g.status = .active →
      g.endAt = some tm → tm ≤ now →
      lookupA (finish_due_giveaways now pick s).1.giveaways gid =
          some (gFinished pick s.gparts gid g) ∧
        (∀ w, winnerOf pick s.gparts gid = some w → w ∈ partsOf s.gparts gid) ∧
        (winnerOf pick s.gparts gid = none → partsOf s.gparts gid = []) ∧
        (finish_due_giveaways now pick s).2.countP (fun e => e.gid == gid) = 1 ∧
        (⟨gid, winnerOf pick s.gparts gid, g.amount, g.creator⟩ : GEvent) ∈
          (finish_due_giveaways now pick s).2) ∧
    ((finish_due_giveaways now pick s).1.users =
      (finish_due_giveaways now pick s).2.foldl creditEvent s.users) ∧
    (∀ e ∈ (finish_due_giveaways now pick s).2,
      ∃ g, lookupA s.giveaways e.gid = some g ∧ g.status = .active ∧
        e.amount = g.amount ∧ e.creator = g.creator ∧
        e.winner = winnerOf pick s.gparts e.gid ∧
        ∃ tm, g.endAt = some tm ∧ tm ≤ now) ∧
    (∀ gid g',
      lookupA (finish_due_giveaways now pick s).1.giveaways gid = some g' →
      g'.status ≠ .active →
      lookupA (finish_due_giveaways now2 pick2
          (finish_due_giveaways now pick s).1).1.giveaways gid = some g' ∧
        ∀ e ∈ (finish_due_giveaways now2 pick2
            (finish_due_giveaways now pick s).1).2, e.gid ≠ gid) := by
  have hrowmem : ∀ p ∈ s.giveaways.filter (fun p => p.2.status = GStatus.active),
      lookupA s.giveaways p.1 = some p.2 ∧ p.2.status = GStatus.active := by
    intro p hp
    obtain ⟨hmem, hpred⟩ := List.mem_filter.mp hp
    exact ⟨mem_lookupA p.1 p.2 s.giveaways hk hmem, by simpa using hpred⟩
  refine ⟨?_, ?_, ?_, ?_⟩
  · intro gid g tm hlk hact hend hdue
    have hmemf : (gid, g) ∈ s.giveaways.filter (fun p => p.2.status = GStatus.active) :=
      List.mem_filter.mpr ⟨lookupA_mem gid g s.giveaways hlk, by simpa using hact⟩
    obtain ⟨h1, new, h2, h3, h4⟩ := finalize_fold_finalizes now pick
      (s.giveaways.filter (fun p => p.2.status = GStatus.active)) (s, [])
      gid g tm (sublist_filter_keys_nodup s.giveaways hk _) hmemf hlk hend hdue
    refine ⟨h1, ?_, ?_, ?_, ?_⟩
    · intro w hw
      unfold winnerOf at hw
      split at hw
      · simp at hw
      · rename_i hne
        rw [Option.some.injEq] at hw
        rw [← hw]
        exact hpick _ (by simpa using hne)
    · intro hw
      unfold winnerOf at hw
      split at hw
      · rename_i hemp
        simpa using hemp
      · simp at hw
    · show (_ : List GEvent).countP _ = 1
      unfold finish_due_giveaways
      rw [h2]
      simpa using h4
    · show _ ∈ (_ : List GEvent)
      unfold finish_due_giveaways
      rw [h2]
      simpa using h3
  · obtain ⟨new, h1, h2, _⟩ := finalize_fold_evs now pick
      (s.giveaways.filter (fun p => p.2.status = GStatus.active)) (s, [])
    show (_ : WState).users = _
    unfold finish_due_giveaways
    rw [h1, h2]
    simp
  · intro e he
    refine finalize_fold_evs_prop now pick
      (fun e => ∃ g, lookupA s.giveaways e.gid = some g ∧
        g.status = .active ∧ e.amount = g.amount ∧ e.creator = g.creator ∧
        e.winner = winnerOf pick s.gparts e.gid ∧ ∃ tm, g.endAt = some tm ∧ tm ≤ now)
      _ (s, []) (by simp) ?_ e he
    intro p hp tm h1 h2
    obtain ⟨hlk, hact⟩ := hrowmem p hp
    exact ⟨p.2, hlk, hact, rfl, rfl, rfl, tm, h1, h2⟩
  · intro gid g' hlk' hnact
    have hk1 : GwKeysOk (finish_due_giveaways now pick s).1 := by
      unfold GwKeysOk finish_due_giveaways
      rw [finalize_fold_keys]
      exact hk
    have hrows2 : ∀ p ∈ (finish_due_giveaways now pick s).1.giveaways.filter
        (fun p => p.2.status = GStatus.active), p.1 = gid →
        p.2.endAt = none ∨ ∃ tm, p.2.endAt = some tm ∧ now2 < tm := by
      intro p hp hpk
      obtain ⟨hmem, hpred⟩ := List.mem_filter.mp hp
      have := mem_lookupA p.1 p.2 _ hk1 hmem
      rw [hpk, hlk'] at this
      have hpg : p.2 = g' := (Option.some.inj this).symm
      rw [hpg] at hpred
      exact absurd (by simpa using hpred) hnact
    obtain ⟨h1, h2⟩ := finalize_fold_untouched now2 pick2 _
      ((finish_due_giveaways now pick s).1, []) gid g' hlk' hrows2
    refine ⟨h1, ?_⟩
    intro e he
    rcases h2 e he with he2 | he2
    · simp at he2
    · exact he2

/-- The concrete state for the C6 witness: one due giveaway (id 7, prize 30,
creator 1, expired at time 100) with participant 2. -/
def c6_demo_state : WState :=
  { initState with
    giveaways := [(7, ⟨1, 30, .active, some 100, none⟩)]
    gparts := [(7, 2)] }

theorem c6_giveaway_finalization_witness :
    GwKeysOk c6_demo_state ∧
      ((finish_due_giveaways 700 (fun l => l.headD 0) c6_demo_state).1.users =
        (finish_due_giveaways 700 (fun l => l.headD 0) c6_demo_state).2.foldl
          creditEvent c6_demo_state.users) :=
  ⟨by simp [GwKeysOk, c6_demo_state, initState],
   (c6_giveaway_finalization c6_demo_state 700 900 (fun l => l.headD 0)
      (fun l => l.headD 0) (by simp [GwKeysOk, c6_demo_state, initState])
      (fun l hl => by cases l with
        | nil => exact absurd rfl hl
        | cons a t => simp)).2.1⟩

/-- C10 (implicit): an active giveaway whose stored `end_at` string does not
parse (`datetime.fromisoformat` raises, modelled by `endAt = none`) is
silently skipped by every sweep invocation: its row — and hence its active
status and escrowed prize — is exactly unchanged, and no finalized event is
emitted for it; the sweep is a total function over the remaining rows, so
the bad row never makes it raise. -/
theorem c10_unparseable_expiry_frozen (s : WState) (now : Int)
    (pick : List Nat → Nat) (gid : Nat) (g : MGiveaway) (hk : GwKeysOk s)
    (hlk : lookupA s.giveaways gid = some g) (hact : g.status = .active)
    (hend : g.endAt = none) :
    lookupA (finish_due_giveaways now pick s).1.giveaways gid = some g ∧
      g.status = .active ∧
      (∀ e ∈ (finish_due_giveaways now pick s).2, e.gid ≠ gid) := by
  have hrows : ∀ p ∈ s.giveaways.filter (fun p => p.2.status = GStatus.active),
      p.1 = gid → p.2.endAt = none ∨ ∃ tm, p.2.endAt = some tm ∧ now < tm := by
    intro p hp hpk
    obtain ⟨hmem, _⟩ := List.mem_filter.mp hp
    have := mem_lookupA p.1 p.2 _ hk hmem
    rw [hpk, hlk] at this
    have hpg : p.2 = g := (Option.some.inj this).symm
    rw [hpg, hend]
    exact Or.inl rfl
  obtain ⟨h1, h2⟩ := finalize_fold_untouched now pick _ (s, []) gid g hlk hrows
  refine ⟨h1, hact, ?_⟩
  intro e he
  rcases h2 e he with he2 | he2
  · simp at he2
  · exact he2

/-- A state with one active giveaway whose `end_at` does not parse. -/
def c10_demo_state : WState :=
  { initState with giveaways := [(3, ⟨1, 25, .active, none, none⟩)] }

theorem c10_unparseable_expiry_frozen_witness :
    GwKeysOk c10_demo_state ∧
      (lookupA (finish_due_giveaways 500 (fun l => l.headD 0)
          c10_demo_state).1.giveaways 3 = some ⟨1, 25, .active, none, none⟩ ∧
        (⟨1, 25, .active, none, none⟩ : MGiveaway).status = .active ∧
        (∀ e ∈ (finish_due_giveaways 500 (fun l => l.headD 0)
            c10_demo_state).2, e.gid ≠ 3)) :=
  ⟨by simp [GwKeysOk, c10_demo_state, initState],
   c10_unparseable_expiry_frozen c10_demo_state 500 (fun l => l.headD 0) 3
     ⟨1, 25, .active, none, none⟩
     (by simp [GwKeysOk, c10_demo_state, initState]) rfl rfl rfl⟩

/-! ## Claims C4 and C5: the order book of src/main3.py -/

/-- One row of main3.py's `orders` table: it keeps the original `amount` and
a separate `remaining`. -/
structure MOrder3 where
  user : Nat
  side : Side
  price : Rat
  amount : Rat
  remaining : Rat
  status : OrderStatus
  createdAt : Nat
deriving DecidableEq, Repr

/-- The slice of main3.py's database that its order book touches, plus a
ghost log (`rebates`) of the `order_price_refund` tx rows it writes. -/
structure W3State where
  users : List (Nat × Acct)
  orders : List (Nat × MOrder3)
  trades : List MTrade
  rebates : List (Nat × Rat)
deriving Repr

/-- `_order_lock_funds` (src/main3.py:631): lock `price*amount` RUB for a
buy or `amount` UWT for a sell, failing (`none`) with the `1e-12`
tolerance. -/
def order_lock_funds (u : List (Nat × Acct)) (uid : Nat) (side : Side)
    (price amount : Rat) : Option (List (Nat × Acct)) :=
  match side with
  | .buy =>
    let cost := price * amount
    if (get_balances u uid).rub + eps < cost then none
    else some (add_rub u uid (-cost))
  | .sell =>
    if (get_balances u uid).uwt + eps < amount then none
    else some (add_uwt u uid (-amount))

/-- Insertion sort by a boolean "goes before" relation (stable, mirroring
the SQL ORDER BY). -/
def insertByB {α : Type} (le : α → α → Bool) (x : α) : List α → List α
  | [] => [x]
  | y :: t => if le x y then x :: y :: t else y :: insertByB le x t

def sortByB {α : Type} (le : α → α → Bool) (l : List α) : List α :=
  l.foldr (insertByB le) []

/-- `SELECT * FROM orders WHERE status='open' AND side='buy'
ORDER BY price DESC, created_at ASC` (src/main3.py:694). -/
def buysSorted (orders : List (Nat × MOrder3)) : List (Nat × MOrder3) :=
  sortByB (fun a b => decide (b.2.price < a.2.price ∨
      (a.2.price = b.2.price ∧ a.2.createdAt ≤ b.2.createdAt)))
    (orders.filter (fun p => p.2.status = OrderStatus.opn ∧ p.2.side = Side.buy))

/-- `SELECT * FROM orders WHERE status='open' AND side='sell'
ORDER BY price ASC, created_at ASC` (src/main3.py:696). -/
def sellsSorted (orders : List (Nat × MOrder3)) : List (Nat × MOrder3) :=
  sortByB (fun a b => decide (a.2.price < b.2.price ∨
      (a.2.price = b.2.price ∧ a.2.createdAt ≤ b.2.createdAt)))
    (orders.filter (fun p => p.2.status = OrderStatus.opn ∧ p.2.side = Side.sell))

/-- One trade in main3.py's `match_orders` inner loop: settle at the sell
price, decrement both `remaining` columns, record the trade; then re-read
the buy row and, only if it is now fully filled, mark it filled and rebate
`(buy_price - trade_price) * qty` (for this leg's qty only) when that
exceeds `1e-12`; finally re-read the sell row and mark it filled when
exhausted.  `b` is the stale buy row captured by the outer loop. -/
def trade3 (st : W3State) (bid : Nat) (b : MOrder3) (sid : Nat)
    (sOrd : MOrder3) (qty tp : Rat) : W3State :=
  let users2 := add_rub (add_uwt st.users b.user qty) sOrd.user (qty * tp)
  let orders2 := updA sid (fun o => { o with remaining := o.remaining - qty })
    (updA bid (fun o => { o with remaining := o.remaining - qty }) st.orders)
  let trades2 := st.trades ++ [⟨bid, sid, tp, qty⟩]
  let afterB :=
    match lookupA orders2 bid with
    | some b2 =>
      if b2.remaining ≤ eps then
        let orders3 := updA bid
          (fun o : MOrder3 => { o with status := .filled, remaining := 0 }) orders2
        let diff := (b.price - tp) * qty
        if eps < diff then
          (add_rub users2 b.user diff, orders3, [(b.user, diff)])
        else (users2, orders3, ([] : List (Nat × Rat)))
      else (users2, orders2, [])
    | none => (users2, orders2, [])
  let orders4 :=
    match lookupA afterB.2.1 sid with
    | some s2 =>
      if s2.remaining ≤ eps then
        updA sid (fun o : MOrder3 => { o with status := .filled, remaining := 0 }) afterB.2.1
      else afterB.2.1
    | none => afterB.2.1
  { users := afterB.1, orders := orders4, trades := trades2,
    rebates := st.rebates ++ afterB.2.2 }

/-- The inner `for s in sells` loop of main3.py's `match_orders`: each sell
row is refreshed before use, skipped when closed or empty, the loop breaks
when even the best remaining sell is too expensive for this buy, and a
trade is executed otherwise.  The buy row `b` stays the stale snapshot of
the outer loop. -/
def inner3 (bid : Nat) (b : MOrder3) : List Nat → W3State → W3State
  | [], st => st
  | sid :: rest, st =>
    match lookupA st.orders sid with
    | none => inner3 bid b rest st
    | some sOrd =>
      if sOrd.status ≠ .opn ∨ sOrd.remaining ≤ eps then inner3 bid b rest st
      else if b.price + eps < sOrd.price then st
      else
        let qty := min b.remaining sOrd.remaining
        if qty ≤ eps then inner3 bid b rest st
        else inner3 bid b rest (trade3 st bid b sid sOrd qty sOrd.price)

/-- The outer `for b in buys` loop: each buy row is refreshed at the start
of its iteration, skipped when closed or empty. -/
def outer3 (sellKeys : List Nat) : List Nat → W3State → W3State
  | [], st => st
  | bid :: rest, st =>
    match lookupA st.orders bid with
    | none => outer3 sellKeys rest st
    | some b =>
      if b.status ≠ .opn ∨ b.remaining ≤ eps then outer3 sellKeys rest st
      else outer3 sellKeys rest (inner3 bid b sellKeys st)

/-- `match_orders` (src/main3.py:688): snapshot the sorted open buys and
sells, then run the two nested loops. -/
def match_orders3 (s : W3State) : W3State :=
  outer3 ((sellsSorted s.orders).map Prod.fst)
    ((buysSorted s.orders).map Prod.fst) s

/-- `place_order` (src/main3.py:663): validate, lock funds, insert the open
order with `remaining = amount`, then match immediately. -/
def place_order3 (s : W3State) (oid uid : Nat) (side : Side)
    (price amount : Rat) (now : Nat) : W3State :=
  if price ≤ 0 ∨ amount ≤ 0 then s
  else
    match lookupA s.orders oid with
    | some _ => s
    | none =>
      match order_lock_funds s.users uid side price amount with
      | none => s
      | some users' =>
        match_orders3
          { s with users := users'
                   orders := s.orders ++
                     [(oid, ⟨uid, side, price, amount, amount, .opn, now⟩)] }

/-! ### Small-step evaluation lemmas for running the two matching engines on
concrete inputs -/

theorem match_loop_succ (fuel : Nat) (s : WState) :
    match_loop (fuel + 1) s =
      match match_step s with
      | none => s
      | some s' => match_loop fuel s' := rfl

theorem match_loop_break (fuel : Nat) (s : WState) (h : match_step s = none) :
    match_loop (fuel + 1) s = s := by
  rw [match_loop_succ, h]

theorem match_loop_go (fuel : Nat) (s s' : WState) (h : match_step s = some s') :
    match_loop (fuel + 1) s = match_loop fuel s' := by
  rw [match_loop_succ, h]

theorem match_orders_def (s : WState) :
    match_orders s = match_loop (s.orders.length + 1) s := rfl

theorem match_step_no_sell (s : WState) (h : bestSellKey s.orders = none) :
    match_step s = none := by
  unfold match_step
  rw [h]
  cases hb : bestBuyKey s.orders with
  | none => rfl
  | some p => cases p; rfl

theorem match_step_go (s : WState) (bk : Nat) (b₀ : MOrder) (sk : Nat)
    (s₀ : MOrder) (b so : MOrder)
    (hb : bestBuyKey s.orders = some (bk, b₀))
    (hs : bestSellKey s.orders = some (sk, s₀))
    (hlb : lookupA s.orders bk = some b) (hls : lookupA s.orders sk = some so)
    (hok : b.status = .opn ∧ b.side = .buy ∧ so.status = .opn ∧ so.side = .sell)
    (hpr : ¬(b.price < so.price)) :
    match_step s = some (do_trade s bk b sk so) := by
  unfold match_step
  rw [hb, hs]
  dsimp only
  rw [hlb, hls]
  dsimp only
  rw [if_pos hok, if_neg hpr]

theorem place_order_buy_go (s : WState) (oid uid : Nat) (price amt : Rat)
    (now : Nat) (hv : ¬(price ≤ 0 ∨ amt ≤ 0)) (hf : lookupA s.orders oid = none)
    (hb : ¬((get_balances s.users uid).rub < price * amt)) :
    place_order s oid uid .buy price amt now =
      match_orders
        { s with users := add_rub s.users uid (-(price * amt))
                 orders := s.orders ++ [(oid, ⟨uid, .buy, price, amt, .opn, now⟩)] } := by
  unfold place_order
  rw [if_neg hv, hf]
  dsimp only
  rw [if_neg hb]

theorem place_order_sell_go (s : WState) (oid uid : Nat) (price amt : Rat)
    (now : Nat) (hv : ¬(price ≤ 0 ∨ amt ≤ 0)) (hf : lookupA s.orders oid = none)
    (hb : ¬((get_balances s.users uid).uwt < amt)) :
    place_order s oid uid .sell price amt now =
      match_orders
        { s with users := add_uwt s.users uid (-amt)
                 orders := s.orders ++ [(oid, ⟨uid, .sell, price, amt, .opn, now⟩)] } := by
  unfold place_order
  rw [if_neg hv, hf]
  dsimp only
  rw [if_neg hb]

theorem inner3_nil (bid : Nat) (b : MOrder3) (st : W3State) :
    inner3 bid b [] st = st := rfl

theorem inner3_cons_trade (bid : Nat) (b : MOrder3) (sid : Nat)
    (rest : List Nat) (st : W3State) (sOrd : MOrder3)
    (h : lookupA st.orders sid = some sOrd)
    (h2 : ¬(sOrd.status ≠ .opn ∨ sOrd.remaining ≤ eps))
    (h3 : ¬(b.price + eps < sOrd.price))
    (h4 : ¬(min b.remaining sOrd.remaining ≤ eps)) :
    inner3 bid b (sid :: rest) st =
      inner3 bid b rest
        (trade3 st bid b sid sOrd (min b.remaining sOrd.remaining) sOrd.price) := by
  rw [inner3, h]
  dsimp only
  rw [if_neg h2, if_neg h3, if_neg h4]

theorem outer3_nil (sellKeys : List Nat) (st : W3State) :
    outer3 sellKeys [] st = st := rfl

theorem outer3_cons_go (sellKeys : List Nat) (bid : Nat) (rest : List Nat)
    (st : W3State) (b : MOrder3) (h : lookupA st.orders bid = some b)
    (h2 : ¬(b.status ≠ .opn ∨ b.remaining ≤ eps)) :
    outer3 sellKeys (bid :: rest) st =
      outer3 sellKeys rest (inner3 bid b sellKeys st) := by
  rw [outer3, h]
  dsimp only
  rw [if_neg h2]

theorem place_order3_go (s : W3State) (oid uid : Nat) (side : Side)
    (price amount : Rat) (now : Nat) (users' : List (Nat × Acct))
    (hv : ¬(price ≤ 0 ∨ amount ≤ 0)) (hf : lookupA s.orders oid = none)
    (hl : order_lock_funds s.users uid side price amount = some users') :
    place_order3 s oid uid side price amount now =
      match_orders3
        { s with users := users'
                 orders := s.orders ++
                   [(oid, ⟨uid, side, price, amount, amount, .opn, now⟩)] } := by
  unfold place_order3
  rw [if_neg hv, hf]
  dsimp only
  rw [hl]

/-! ## Claim C4: the spec's reference matching scenario

A buy order (price 12, amount 10) and a sell order (price 10, amount 6) are
placed in either order; the intermediate states of both runs are evaluated
step by step on both engines. -/

def c4_trace_a : List Op :=
  [.admin_adjust 1 .RUB 120, .admin_adjust 2 .UWT 6,
   .place 10 1 .buy 12 10 0, .place 11 2 .sell 10 6 1]

def c4_trace_b : List Op :=
  [.admin_adjust 1 .RUB 120, .admin_adjust 2 .UWT 6,
   .place 11 2 .sell 10 6 0, .place 10 1 .buy 12 10 1]

def c4A1 : WState := { initState with users := [(1, ⟨0, 120⟩)], adminRub := 120 }

def c4A2 : WState := { c4A1 with users := [(2, ⟨6, 0⟩), (1, ⟨0, 120⟩)], adminUwt := 6 }

def c4A3 : WState :=
  { c4A2 with users := [(2, ⟨6, 0⟩), (1, ⟨0, 0⟩)]
              orders := [(10, ⟨1, .buy, 12, 10, .opn, 0⟩)] }

def c4A3' : WState :=
  { c4A3 with users := [(2, ⟨0, 0⟩), (1, ⟨0, 0⟩)]
              orders := [(10, ⟨1, .buy, 12, 10, .opn, 0⟩),
                         (11, ⟨2, .sell, 10, 6, .opn, 1⟩)] }

def c4A4 : WState :=
  { c4A3 with users := [(2, ⟨0, 60⟩), (1, ⟨6, 12⟩)]
              orders := [(10, ⟨1, .buy, 12, 4, .opn, 0⟩),
                         (11, ⟨2, .sell, 10, 0, .filled, 1⟩)]
              trades := [⟨10, 11, 10, 6⟩] }

theorem c4a_e1 : admin_adjust initState 1 .RUB 120 = c4A1 := by
  norm_num [admin_adjust, add_rub, adjBal, lookupA, initState, c4A1]

theorem c4a_e2 : admin_adjust c4A1 2 .UWT 6 = c4A2 := by
  norm_num [admin_adjust, add_uwt, adjBal, lookupA, initState, c4A1, c4A2]

theorem c4a_e3 : place_order c4A2 10 1 .buy 12 10 0 = match_orders c4A3 := by
  norm_num [place_order, lookupA, get_balances, add_rub, adjBal, updA,
    initState, c4A1, c4A2, c4A3]

theorem c4a_e3m : match_orders c4A3 = c4A3 := by
  show match_loop (1 + 1) c4A3 = c4A3
  exact match_loop_break 1 c4A3 rfl

theorem c4a_e4 : place_order c4A3 11 2 .sell 10 6 1 = match_orders c4A3' := by
  norm_num [place_order, lookupA, get_balances, add_uwt, adjBal, updA,
    initState, c4A1, c4A2, c4A3, c4A3']

theorem c4a_step : match_step c4A3' = some c4A4 := by
  unfold match_step
  rw [show bestBuyKey c4A3'.orders = some (10, ⟨1, .buy, 12, 10, .opn, 0⟩) from rfl,
      show bestSellKey c4A3'.orders = some (11, ⟨2, .sell, 10, 6, .opn, 1⟩) from rfl]
  norm_num [lookupA, do_trade, updA, add_uwt, add_rub, adjBal, get_balances,
    min_def, eps, initState, c4A1, c4A2, c4A3, c4A3', c4A4]

theorem c4a_e4m : match_orders c4A3' = c4A4 := by
  show match_loop (2 + 1) c4A3' = c4A4
  rw [match_loop_go 2 c4A3' c4A4 c4a_step]
  exact match_loop_break 1 c4A4 rfl

theorem c4a_run : runOps c4_trace_a = c4A4 := by
  show place_order (place_order (admin_adjust (admin_adjust initState 1 .RUB 120)
      2 .UWT 6) 10 1 .buy 12 10 0) 11 2 .sell 10 6 1 = c4A4
  rw [c4a_e1, c4a_e2, c4a_e3, c4a_e3m, c4a_e4, c4a_e4m]

def c4B3 : WState :=
  { c4A2 with users := [(2, ⟨0, 0⟩), (1, ⟨0, 120⟩)]
              orders := [(11, ⟨2, .sell, 10, 6, .opn, 0⟩)] }

def c4B3' : WState :=
  { c4B3 with users := [(2, ⟨0, 0⟩), (1, ⟨0, 0⟩)]
              orders := [(11, ⟨2, .sell, 10, 6, .opn, 0⟩),
                         (10, ⟨1, .buy, 12, 10, .opn, 1⟩)] }

def c4B4 : WState :=
  { c4B3 with users := [(2, ⟨0, 60⟩), (1, ⟨6, 12⟩)]
              orders := [(11, ⟨2, .sell, 10, 0, .filled, 0⟩),
                         (10, ⟨1, .buy, 12, 4, .opn, 1⟩)]
              trades := [⟨10, 11, 10, 6⟩] }

theorem c4b_e3 : place_order c4A2 11 2 .sell 10 6 0 = match_orders c4B3 := by
  norm_num [place_order, lookupA, get_balances, add_uwt, adjBal, updA,
    initState, c4A1, c4A2, c4B3]

theorem c4b_e3m : match_orders c4B3 = c4B3 := by
  show match_loop (1 + 1) c4B3 = c4B3
  exact match_loop_break 1 c4B3 rfl

theorem c4b_e4 : place_order c4B3 10 1 .buy 12 10 1 = match_orders c4B3' := by
  norm_num [place_order, lookupA, get_balances, add_rub, adjBal, updA,
    initState, c4A1, c4A2, c4B3, c4B3']

theorem c4b_step : match_step c4B3' = some c4B4 := by
  unfold match_step
  rw [show bestBuyKey c4B3'.orders = some (10, ⟨1, .buy, 12, 10, .opn, 1⟩) from rfl,
      show bestSellKey c4B3'.orders = some (11, ⟨2, .sell, 10, 6, .opn, 0⟩) from rfl]
  norm_num [lookupA, do_trade, updA, add_uwt, add_rub, adjBal, get_balances,
    min_def, eps, initState, c4A1, c4A2, c4B3, c4B3', c4B4]

theorem c4b_e4m : match_orders c4B3' = c4B4 := by
  show match_loop (2 + 1) c4B3' = c4B4
  rw [match_loop_go 2 c4B3' c4B4 c4b_step]
  exact match_loop_break 1 c4B4 rfl

theorem c4b_run : runOps c4_trace_b = c4B4 := by
  show place_order (place_order (admin_adjust (admin_adjust initState 1 .RUB 120)
      2 .UWT 6) 11 2 .sell 10 6 0) 10 1 .buy 12 10 1 = c4B4
  rw [c4a_e1, c4a_e2, c4b_e3, c4b_e3m, c4b_e4, c4b_e4m]

/-! ### The same scenario on main3.py's engine -/

def c4_state3 : W3State :=
  { users := [(1, ⟨0, 120⟩), (2, ⟨6, 0⟩)], orders := [], trades := [], rebates := [] }

def c4_run3a : W3State :=
  place_order3 (place_order3 c4_state3 10 1 .buy 12 10 0) 11 2 .sell 10 6 1

def c4_run3b : W3State :=
  place_order3 (place_order3 c4_state3 11 2 .sell 10 6 0) 10 1 .buy 12 10 1

def c4R1 : W3State :=
  { users := [(1, ⟨0, 0⟩), (2, ⟨6, 0⟩)]
    orders := [(10, ⟨1, .buy, 12, 10, 10, .opn, 0⟩)], trades := [], rebates := [] }

def c4R2pre : W3State :=
  { users := [(1, ⟨0, 0⟩), (2, ⟨0, 0⟩)]
    orders := [(10, ⟨1, .buy, 12, 10, 10, .opn, 0⟩), (11, ⟨2, .sell, 10, 6, 6, .opn, 1⟩)]
    trades := [], rebates := [] }

def c4R2 : W3State :=
  { users := [(1, ⟨6, 0⟩), (2, ⟨0, 60⟩)]
    orders := [(10, ⟨1, .buy, 12, 10, 4, .opn, 0⟩), (11, ⟨2, .sell, 10, 6, 0, .filled, 1⟩)]
    trades := [⟨10, 11, 10, 6⟩], rebates := [] }

theorem c4r3a_m1 : match_orders3 c4R1 = c4R1 := by
  rw [show match_orders3 c4R1 = outer3 [] [10] c4R1 from rfl,
      outer3_cons_go [] 10 [] c4R1 ⟨1, .buy, 12, 10, 10, .opn, 0⟩ rfl
        (by norm_num [eps]),
      inner3_nil, outer3_nil]

theorem c4r3a_p1 : place_order3 c4_state3 10 1 .buy 12 10 0 = c4R1 := by
  rw [place_order3_go c4_state3 10 1 .buy 12 10 0 [(1, ⟨0, 0⟩), (2, ⟨6, 0⟩)]
      (by norm_num) rfl
      (by norm_num [order_lock_funds, get_balances, lookupA, add_rub, adjBal,
        updA, eps, c4_state3])]
  show match_orders3 c4R1 = c4R1
  exact c4r3a_m1

theorem c4r3a_tr :
    trade3 c4R2pre 10 ⟨1, .buy, 12, 10, 10, .opn, 0⟩ 11 ⟨2, .sell, 10, 6, 6, .opn, 1⟩
      (min (⟨1, .buy, 12, 10, 10, .opn, 0⟩ : MOrder3).remaining
        (⟨2, .sell, 10, 6, 6, .opn, 1⟩ : MOrder3).remaining)
      (⟨2, .sell, 10, 6, 6, .opn, 1⟩ : MOrder3).price = c4R2 := by
  norm_num [trade3, updA, add_uwt, add_rub, adjBal, lookupA, get_balances,
    eps, min_def, c4R2pre, c4R2]

theorem c4r3a_m2 : match_orders3 c4R2pre = c4R2 := by
  rw [show match_orders3 c4R2pre = outer3 [11] [10] c4R2pre from rfl,
      outer3_cons_go [11] 10 [] c4R2pre ⟨1, .buy, 12, 10, 10, .opn, 0⟩ rfl
        (by norm_num [eps]),
      inner3_cons_trade 10 ⟨1, .buy, 12, 10, 10, .opn, 0⟩ 11 [] c4R2pre
        ⟨2, .sell, 10, 6, 6, .opn, 1⟩ rfl (by norm_num [eps]) (by norm_num [eps])
        (by norm_num [eps, min_def]),
      inner3_nil, c4r3a_tr, outer3_nil]

theorem c4r3a_p2 : place_order3 c4R1 11 2 .sell 10 6 1 = c4R2 := by
  rw [place_order3_go c4R1 11 2 .sell 10 6 1 [(1, ⟨0, 0⟩), (2, ⟨0, 0⟩)]
      (by norm_num) rfl
      (by norm_num [order_lock_funds, get_balances, lookupA, add_uwt, adjBal,
        updA, eps, c4R1])]
  show match_orders3 c4R2pre = c4R2
  exact c4r3a_m2

theorem c4r3a_run : c4_run3a = c4R2 := by
  show place_order3 (place_order3 c4_state3 10 1 .buy 12 10 0) 11 2 .sell 10 6 1 = c4R2
  rw [c4r3a_p1, c4r3a_p2]

def c4S1 : W3State :=
  { users := [(1, ⟨0, 120⟩), (2, ⟨0, 0⟩)]
    orders := [(11, ⟨2, .sell, 10, 6, 6, .opn, 0⟩)], trades := [], rebates := [] }

def c4S2pre : W3State :=
  { users := [(1, ⟨0, 0⟩), (2, ⟨0, 0⟩)]
    orders := [(11, ⟨2, .sell, 10, 6, 6, .opn, 0⟩), (10, ⟨1, .buy, 12, 10, 10, .opn, 1⟩)]
    trades := [], rebates := [] }

def c4S2 : W3State :=
  { users := [(1, ⟨6, 0⟩), (2, ⟨0, 60⟩)]
    orders := [(11, ⟨2, .sell, 10, 6, 0, .filled, 0⟩), (10, ⟨1, .buy, 12, 10, 4, .opn, 1⟩)]
    trades := [⟨10, 11, 10, 6⟩], rebates := [] }

theorem c4r3b_m1 : match_orders3 c4S1 = c4S1 := by
  rw [show match_orders3 c4S1 = outer3 [11] [] c4S1 from rfl, outer3_nil]

theorem c4r3b_p1 : place_order3 c4_state3 11 2 .sell 10 6 0 = c4S1 := by
  rw [place_order3_go c4_state3 11 2 .sell 10 6 0 [(1, ⟨0, 120⟩), (2, ⟨0, 0⟩)]
      (by norm_num) rfl
      (by norm_num [order_lock_funds, get_balances, lookupA, add_uwt, adjBal,
        updA, eps, c4_state3])]
  show match_orders3 c4S1 = c4S1
  exact c4r3b_m1

theorem c4r3b_tr :
    trade3 c4S2pre 10 ⟨1, .buy, 12, 10, 10, .opn, 1⟩ 11 ⟨2, .sell, 10, 6, 6, .opn, 0⟩
      (min (⟨1, .buy, 12, 10, 10, .opn, 1⟩ : MOrder3).remaining
        (⟨2, .sell, 10, 6, 6, .opn, 0⟩ : MOrder3).remaining)
      (⟨2, .sell, 10, 6, 6, .opn, 0⟩ : MOrder3).price = c4S2 := by
  norm_num [trade3, updA, add_uwt, add_rub, adjBal, lookupA, get_balances,
    eps, min_def, c4S2pre, c4S2]

theorem c4r3b_m2 : match_orders3 c4S2pre = c4S2 := by
  rw [show match_orders3 c4S2pre = outer3 [11] [10] c4S2pre from rfl,
      outer3_cons_go [11] 10 [] c4S2pre ⟨1, .buy, 12, 10, 10, .opn, 1⟩ rfl
        (by norm_num [eps]),
      inner3_cons_trade 10 ⟨1, .buy, 12, 10, 10, .opn, 1⟩ 11 [] c4S2pre
        ⟨2, .sell, 10, 6, 6, .opn, 0⟩ rfl (by norm_num [eps]) (by norm_num [eps])
        (by norm_num [eps, min_def]),
      inner3_nil, c4r3b_tr, outer3_nil]

theorem c4r3b_p2 : place_order3 c4S1 10 1 .buy 12 10 1 = c4S2 := by
  rw [place_order3_go c4S1 10 1 .buy 12 10 1 [(1, ⟨0, 0⟩), (2, ⟨0, 0⟩)]
      (by norm_num) rfl
      (by norm_num [order_lock_funds, get_balances, lookupA, add_rub, adjBal,
        updA, eps, c4S1])]
  show match_orders3 c4S2pre = c4S2
  exact c4r3b_m2

theorem c4r3b_run : c4_run3b = c4S2 := by
  show place_order3 (place_order3 c4_state3 11 2 .sell 10 6 0) 10 1 .buy 12 10 1 = c4S2
  rw [c4r3b_p1, c4r3b_p2]

/-! ## Claim C5: per-leg buy-side rebates

A buy order (limit 12, amount 10) is filled in two legs at price 10
(quantities 6 and 4), on main3.py's engine and then, for comparison, on
main.py's. -/

def c5_state0 : W3State :=
  { users := [(1, ⟨0, 120⟩), (2, ⟨6, 0⟩), (3, ⟨4, 0⟩)]
    orders := [], trades := [], rebates := [] }

def c5_mid3 : W3State :=
  place_order3 (place_order3 c5_state0 10 1 .buy 12 10 0) 11 2 .sell 10 6 1

def c5_run3 : W3State := place_order3 c5_mid3 12 3 .sell 10 4 2

def c5D1 : W3State :=
  { users := [(1, ⟨0, 0⟩), (2, ⟨6, 0⟩), (3, ⟨4, 0⟩)]
    orders := [(10, ⟨1, .buy, 12, 10, 10, .opn, 0⟩)], trades := [], rebates := [] }

def c5D2pre : W3State :=
  { users := [(1, ⟨0, 0⟩), (2, ⟨0, 0⟩), (3, ⟨4, 0⟩)]
    orders := [(10, ⟨1, .buy, 12, 10, 10, .opn, 0⟩), (11, ⟨2, .sell, 10, 6, 6, .opn, 1⟩)]
    trades := [], rebates := [] }

def c5D2 : W3State :=
  { users := [(1, ⟨6, 0⟩), (2, ⟨0, 60⟩), (3, ⟨4, 0⟩)]
    orders := [(10, ⟨1, .buy, 12, 10, 4, .opn, 0⟩), (11, ⟨2, .sell, 10, 6, 0, .filled, 1⟩)]
    trades := [⟨10, 11, 10, 6⟩], rebates := [] }

def c5D3pre : W3State :=
  { users := [(1, ⟨6, 0⟩), (2, ⟨0, 60⟩), (3, ⟨0, 0⟩)]
    orders := [(10, ⟨1, .buy, 12, 10, 4, .opn, 0⟩), (11, ⟨2, .sell, 10, 6, 0, .filled, 1⟩),
               (12, ⟨3, .sell, 10, 4, 4, .opn, 2⟩)]
    trades := [⟨10, 11, 10, 6⟩], rebates := [] }

def c5D3 : W3State :=
  { users := [(1, ⟨10, 8⟩), (2, ⟨0, 60⟩), (3, ⟨0, 40⟩)]
    orders := [(10, ⟨1, .buy, 12, 10, 0, .filled, 0⟩), (11, ⟨2, .sell, 10, 6, 0, .filled, 1⟩),
               (12, ⟨3, .sell, 10, 4, 0, .filled, 2⟩)]
    trades := [⟨10, 11, 10, 6⟩, ⟨10, 12, 10, 4⟩], rebates := [(1, 8)] }

theorem c5_m1 : match_orders3 c5D1 = c5D1 := by
  rw [show match_orders3 c5D1 = outer3 [] [10] c5D1 from rfl,
      outer3_cons_go [] 10 [] c5D1 ⟨1, .buy, 12, 10, 10, .opn, 0⟩ rfl
        (by norm_num [eps]),
      inner3_nil, outer3_nil]

theorem c5_p1 : place_order3 c5_state0 10 1 .buy 12 10 0 = c5D1 := by
  rw [place_order3_go c5_state0 10 1 .buy 12 10 0 [(1, ⟨0, 0⟩), (2, ⟨6, 0⟩), (3, ⟨4, 0⟩)]
      (by norm_num) rfl
      (by norm_num [order_lock_funds, get_balances, lookupA, add_rub, adjBal,
        updA, eps, c5_state0])]
  show match_orders3 c5D1 = c5D1
  exact c5_m1

theorem c5_tr1 :
    trade3 c5D2pre 10 ⟨1, .buy, 12, 10, 10, .opn, 0⟩ 11 ⟨2, .sell, 10, 6, 6, .opn, 1⟩
      (min (⟨1, .buy, 12, 10, 10, .opn, 0⟩ : MOrder3).remaining
        (⟨2, .sell, 10, 6, 6, .opn, 1⟩ : MOrder3).remaining)
      (⟨2, .sell, 10, 6, 6, .opn, 1⟩ : MOrder3).price = c5D2 := by
  norm_num [trade3, updA, add_uwt, add_rub, adjBal, lookupA, get_balances,
    eps, min_def, c5D2pre, c5D2]

theorem c5_m2 : match_orders3 c5D2pre = c5D2 := by
  rw [show match_orders3 c5D2pre = outer3 [11] [10] c5D2pre from rfl,
      outer3_cons_go [11] 10 [] c5D2pre ⟨1, .buy, 12, 10, 10, .opn, 0⟩ rfl
        (by norm_num [eps]),
      inner3_cons_trade 10 ⟨1, .buy, 12, 10, 10, .opn, 0⟩ 11 [] c5D2pre
        ⟨2, .sell, 10, 6, 6, .opn, 1⟩ rfl (by norm_num [eps]) (by norm_num [eps])
        (by norm_num [eps, min_def]),
      inner3_nil, c5_tr1, outer3_nil]

theorem c5_p2 : place_order3 c5D1 11 2 .sell 10 6 1 = c5D2 := by
  rw [place_order3_go c5D1 11 2 .sell 10 6 1 [(1, ⟨0, 0⟩), (2, ⟨0, 0⟩), (3, ⟨4, 0⟩)]
      (by norm_num) rfl
      (by norm_num [order_lock_funds, get_balances, lookupA, add_uwt, adjBal,
        updA, eps, c5D1])]
  show match_orders3 c5D2pre = c5D2
  exact c5_m2

theorem c5_mid3_eq : c5_mid3 = c5D2 := by
  show place_order3 (place_order3 c5_state0 10 1 .buy 12 10 0) 11 2 .sell 10 6 1 = c5D2
  rw [c5_p1, c5_p2]

theorem c5_tr2 :
    trade3 c5D3pre 10 ⟨1, .buy, 12, 10, 4, .opn, 0⟩ 12 ⟨3, .sell, 10, 4, 4, .opn, 2⟩
      (min (⟨1, .buy, 12, 10, 4, .opn, 0⟩ : MOrder3).remaining
        (⟨3, .sell, 10, 4, 4, .opn, 2⟩ : MOrder3).remaining)
      (⟨3, .sell, 10, 4, 4, .opn, 2⟩ : MOrder3).price = c5D3 := by
  norm_num [trade3, updA, add_uwt, add_rub, adjBal, lookupA, get_balances,
    eps, min_def, c5D3pre, c5D3]

theorem c5_m3 : match_orders3 c5D3pre = c5D3 := by
  rw [show match_orders3 c5D3pre = outer3 [12] [10] c5D3pre from rfl,
      outer3_cons_go [12] 10 [] c5D3pre ⟨1, .buy, 12, 10, 4, .opn, 0⟩ rfl
        (by norm_num [eps]),
      inner3_cons_trade 10 ⟨1, .buy, 12, 10, 4, .opn, 0⟩ 12 [] c5D3pre
        ⟨3, .sell, 10, 4, 4, .opn, 2⟩ rfl (by norm_num [eps]) (by norm_num [eps])
        (by norm_num [eps, min_def]),
      inner3_nil, c5_tr2, outer3_nil]

theorem c5_run3_eq : c5_run3 = c5D3 := by
  show place_order3 c5_mid3 12 3 .sell 10 4 2 = c5D3
  rw [c5_mid3_eq,
      place_order3_go c5D2 12 3 .sell 10 4 2 [(1, ⟨6, 0⟩), (2, ⟨0, 60⟩), (3, ⟨0, 0⟩)]
        (by norm_num) rfl
        (by norm_num [order_lock_funds, get_balances, lookupA, add_uwt, adjBal,
          updA, eps, c5D2])]
  show match_orders3 c5D3pre = c5D3
  exact c5_m3

/-! ### The same two-leg fill on main.py's engine -/

def c5_trace_main : List Op :=
  [.admin_adjust 1 .RUB 120, .admin_adjust 2 .UWT 6, .admin_adjust 3 .UWT 4,
   .place 10 1 .buy 12 10 0, .place 11 2 .sell 10 6 1, .place 12 3 .sell 10 4 2]

def c5M3 : WState :=
  { c4A2 with users := [(3, ⟨4, 0⟩), (2, ⟨6, 0⟩), (1, ⟨0, 120⟩)], adminUwt := 10 }

def c5M4 : WState :=
  { c5M3 with users := [(3, ⟨4, 0⟩), (2, ⟨6, 0⟩), (1, ⟨0, 0⟩)]
              orders := [(10, ⟨1, .buy, 12, 10, .opn, 0⟩)] }

def c5M5pre : WState :=
  { c5M4 with users := [(3, ⟨4, 0⟩), (2, ⟨0, 0⟩), (1, ⟨0, 0⟩)]
              orders := [(10, ⟨1, .buy, 12, 10, .opn, 0⟩), (11, ⟨2, .sell, 10, 6, .opn, 1⟩)] }

def c5M5 : WState :=
  { c5M4 with users := [(3, ⟨4, 0⟩), (2, ⟨0, 60⟩), (1, ⟨6, 12⟩)]
              orders := [(10, ⟨1, .buy, 12, 4, .opn, 0⟩), (11, ⟨2, .sell, 10, 0, .filled, 1⟩)]
              trades := [⟨10, 11, 10, 6⟩] }

def c5M6pre : WState :=
  { c5M5 with users := [(3, ⟨0, 0⟩), (2, ⟨0, 60⟩), (1, ⟨6, 12⟩)]
              orders := [(10, ⟨1, .buy, 12, 4, .opn, 0⟩), (11, ⟨2, .sell, 10, 0, .filled, 1⟩),
                         (12, ⟨3, .sell, 10, 4, .opn, 2⟩)] }

def c5M6 : WState :=
  { c5M5 with users := [(3, ⟨0, 40⟩), (2, ⟨0, 60⟩), (1, ⟨10, 20⟩)]
              orders := [(10, ⟨1, .buy, 12, 0, .filled, 0⟩), (11, ⟨2, .sell, 10, 0, .filled, 1⟩),
                         (12, ⟨3, .sell, 10, 0, .filled, 2⟩)]
              trades := [⟨10, 11, 10, 6⟩, ⟨10, 12, 10, 4⟩] }

theorem c5m_e3 : admin_adjust c4A2 3 .UWT 4 = c5M3 := by
  norm_num [admin_adjust, add_uwt, adjBal, lookupA, updA, initState, c4A1, c4A2, c5M3]

theorem c5m_e4 : place_order c5M3 10 1 .buy 12 10 0 = match_orders c5M4 := by
  norm_num [place_order, lookupA, get_balances, add_rub, adjBal, updA,
    initState, c4A1, c4A2, c5M3, c5M4]

theorem c5m_e4m : match_orders c5M4 = c5M4 := by
  show match_loop (1 + 1) c5M4 = c5M4
  exact match_loop_break 1 c5M4 rfl

theorem c5m_e5 : place_order c5M4 11 2 .sell 10 6 1 = match_orders c5M5pre := by
  norm_num [place_order, lookupA, get_balances, add_uwt, adjBal, updA,
    initState, c4A1, c4A2, c5M3, c5M4, c5M5pre]

theorem c5m_step1 : match_step c5M5pre = some c5M5 := by
  unfold match_step
  rw [show bestBuyKey c5M5pre.orders = some (10, ⟨1, .buy, 12, 10, .opn, 0⟩) from rfl,
      show bestSellKey c5M5pre.orders = some (11, ⟨2, .sell, 10, 6, .opn, 1⟩) from rfl]
  norm_num [lookupA, do_trade, updA, add_uwt, add_rub, adjBal, get_balances,
    min_def, eps, initState, c4A1, c4A2, c5M3, c5M4, c5M5pre, c5M5]

theorem c5m_e5m : match_orders c5M5pre = c5M5 := by
  show match_loop (2 + 1) c5M5pre = c5M5
  rw [match_loop_go 2 c5M5pre c5M5 c5m_step1]
  exact match_loop_break 1 c5M5 rfl

theorem c5m_e6 : place_order c5M5 12 3 .sell 10 4 2 = match_orders c5M6pre := by
  norm_num [place_order, lookupA, get_balances, add_uwt, adjBal, updA,
    initState, c4A1, c4A2, c5M3, c5M4, c5M5, c5M6pre]

theorem c5m_step2 : match_step c5M6pre = some c5M6 := by
  unfold match_step
  rw [show bestBuyKey c5M6pre.orders = some (10, ⟨1, .buy, 12, 4, .opn, 0⟩) from rfl,
      show bestSellKey c5M6pre.orders = some (12, ⟨3, .sell, 10, 4, .opn, 2⟩) from rfl]
  norm_num [lookupA, do_trade, updA, add_uwt, add_rub, adjBal, get_balances,
    min_def, eps, initState, c4A1, c4A2, c5M3, c5M4, c5M5, c5M6pre, c5M6]

theorem c5m_e6m : match_orders c5M6pre = c5M6 := by
  show match_loop (3 + 1) c5M6pre = c5M6
  rw [match_loop_go 3 c5M6pre c5M6 c5m_step2]
  exact match_loop_break 2 c5M6 rfl

theorem c5m_run : runOps c5_trace_main = c5M6 := by
  show place_order (place_order (place_order (admin_adjust (admin_adjust
      (admin_adjust initState 1 .RUB 120) 2 .UWT 6) 3 .UWT 4)
      10 1 .buy 12 10 0) 11 2 .sell 10 6 1) 12 3 .sell 10 4 2 = c5M6
  rw [c4a_e1, c4a_e2, c5m_e3, c5m_e4, c5m_e4m, c5m_e5, c5m_e5m, c5m_e6, c5m_e6m]

/-- C4, counterexample: the claim's figure "60 refunded to the buyer" is
wrong on both engines.  On the reference scenario (buy 12×10, then sell
10×6, in either placement order) main.py refunds the buyer only
`(12 - 10) * 6 = 12` RUB — the remaining 48 of the lock stays reserved for
the still-open remainder of 4 UWT at limit 12 — and main3.py refunds
nothing at all on a partial fill, so the buyer's free RUB balance is 12
(main.py) respectively 0 (main3.py), not 60. -/
theorem c4_matching_counterexample :
    Reachable (runOps c4_trace_a) ∧
      rubOf (runOps c4_trace_a).users 1 = 12 ∧
      rubOf (runOps c4_trace_b).users 1 = 12 ∧
      rubOf c4_run3a.users 1 = 0 ∧
      (12 : Rat) ≠ 60 ∧ (0 : Rat) ≠ 60 := by
  refine ⟨⟨c4_trace_a, rfl⟩, ?_, ?_, ?_, by norm_num, by norm_num⟩
  · rw [c4a_run]
    norm_num [rubOf, get_balances, lookupA, c4A4, c4A3, c4A2, c4A1, initState]
  · rw [c4b_run]
    norm_num [rubOf, get_balances, lookupA, c4B4, c4B3, c4A2, c4A1, initState]
  · rw [c4r3a_run]
    norm_num [rubOf, get_balances, lookupA, c4R2]

/-- C4, amended: on the reference scenario (buy price 12 amount 10, sell
price 10 amount 6, placed in either order) both engines produce exactly one
trade at price 10 and amount 6, leave the buy order open with remaining 4
and mark the sell order filled; but of the buyer's locked 120 RUB, main.py
refunds the per-leg limit difference `(12-10)*6 = 12` (not 60), keeping 48
reserved for the open remainder, while main3.py refunds nothing on a
partial fill (its rebate log stays empty and the buyer's free RUB balance
is 0). -/
theorem c4_matching_amended :
    ((runOps c4_trace_a).trades = [⟨10, 11, 10, 6⟩] ∧
      lookupA (runOps c4_trace_a).orders 10 = some ⟨1, .buy, 12, 4, .opn, 0⟩ ∧
      lookupA (runOps c4_trace_a).orders 11 = some ⟨2, .sell, 10, 0, .filled, 1⟩ ∧
      uwtOf (runOps c4_trace_a).users 1 = 6 ∧ rubOf (runOps c4_trace_a).users 1 = 12 ∧
      rubOf (runOps c4_trace_a).users 2 = 60) ∧
    ((runOps c4_trace_b).trades = [⟨10, 11, 10, 6⟩] ∧
      lookupA (runOps c4_trace_b).orders 10 = some ⟨1, .buy, 12, 4, .opn, 1⟩ ∧
      lookupA (runOps c4_trace_b).orders 11 = some ⟨2, .sell, 10, 0, .filled, 0⟩ ∧
      uwtOf (runOps c4_trace_b).users 1 = 6 ∧ rubOf (runOps c4_trace_b).users 1 = 12 ∧
      rubOf (runOps c4_trace_b).users 2 = 60) ∧
    (c4_run3a.trades = [⟨10, 11, 10, 6⟩] ∧
      lookupA c4_run3a.orders 10 = some ⟨1, .buy, 12, 10, 4, .opn, 0⟩ ∧
      lookupA c4_run3a.orders 11 = some ⟨2, .sell, 10, 6, 0, .filled, 1⟩ ∧
      c4_run3a.rebates = [] ∧ rubOf c4_run3a.users 1 = 0) ∧
    (c4_run3b.trades = [⟨10, 11, 10, 6⟩] ∧
      lookupA c4_run3b.orders 10 = some ⟨1, .buy, 12, 10, 4, .opn, 1⟩ ∧
      lookupA c4_run3b.orders 11 = some ⟨2, .sell, 10, 6, 0, .filled, 0⟩ ∧
      c4_run3b.rebates = [] ∧ rubOf c4_run3b.users 1 = 0) := by
  rw [c4a_run, c4b_run, c4r3a_run, c4r3b_run]
  norm_num [lookupA, uwtOf, rubOf, get_balances, c4A4, c4A3, c4A2, c4A1,
    c4B4, c4B3, c4R2, c4S2, initState]

/-- C5: the per-leg buy-side rebate claim is implemented by main.py's
`match_orders` but NOT by main3.py's.  On a buy order (limit 12, amount 10)
filled in two legs of 6 and 4 at trade price 10: main3.py issues no rebate
on the first, partial-fill leg (its own comment at src/main3.py:749
notwithstanding), and on the completing leg rebates only
`(12-10)*4 = 8` for that leg's quantity, so the buyer ends with 8 free RUB
and the total RUB held in user accounts drops from 120 to 108 — 12 RUB of
the original lock are stranded outside any account or open order.
main.py rebates every leg independently (12 then 8), leaving the buyer
with 20 RUB and conserving the total of 120. -/
theorem c5_per_leg_rebate_bug :
    (c5_mid3.trades = [⟨10, 11, 10, 6⟩] ∧
      lookupA c5_mid3.orders 10 = some ⟨1, .buy, 12, 10, 4, .opn, 0⟩ ∧
      c5_mid3.rebates = [] ∧ rubOf c5_mid3.users 1 = 0) ∧
    (c5_run3.trades = [⟨10, 11, 10, 6⟩, ⟨10, 12, 10, 4⟩] ∧
      c5_run3.rebates = [(1, 8)] ∧ rubOf c5_run3.users 1 = 8 ∧
      sumRub c5_run3.users = 108 ∧ sumRub c5_state0.users = 120) ∧
    (rubOf (runOps c5_trace_main).users 1 = 20 ∧
      sumRub (runOps c5_trace_main).users = 120) := by
  rw [c5_mid3_eq, c5_run3_eq, c5m_run]
  norm_num [lookupA, rubOf, get_balances, sumRub, sumA, c5D2, c5D3, c5_state0,
    c5M6, c5M5, c5M4, c5M3, c4A2, c4A1, initState]

/-! ## Claim C8: non-negativity of balances

`add_asset` (src/main.py:329) applies any delta, and `adm_bal_amount`
(src/main.py:1917) passes the admin's signed amount straight through, so a
negative admin delta can drive a balance below zero.  For the amended claim
we prove that every other operation preserves non-negativity: the
operation-level guards (`balance < amount` checks before each debit) and
the positivity validation of created amounts are exactly what is needed. -/

/-- Every account row is non-negative in both assets. -/
def NonnegBal (u : List (Nat × Acct)) : Prop :=
  ∀ p ∈ u, 0 ≤ p.2.uwt ∧ 0 ≤ p.2.rub

/-- All stored amounts that operations later credit are non-negative. -/
def AmountsOk (s : WState) : Prop :=
  (∀ p ∈ s.checks, 0 ≤ p.2.amount) ∧
    (∀ p ∈ s.bills, 0 ≤ p.2.amount) ∧
    (∀ p ∈ s.orders, 0 ≤ p.2.price ∧ 0 ≤ p.2.amount) ∧
    (∀ p ∈ s.giveaways, 0 ≤ p.2.amount)

def NInv (s : WState) : Prop := NonnegBal s.users ∧ AmountsOk s ∧ 0 < s.rate

/-- The operations whose raw inputs the admin side does not validate: the
balance-adjustment delta is applied as given, and the channel price is
taken from the channel row (validated as positive at registration, which
the operation alphabet does not model). -/
def OpSafe : Op → Prop
  | .admin_adjust _ _ delta => 0 ≤ delta
  | .channel_buy _ _ price _ => 0 ≤ price
  | _ => True

theorem mem_updA {β : Type} (key : Nat) (f : β → β) :
    ∀ l : List (Nat × β), ∀ p ∈ updA key f l,
      p ∈ l ∨ ∃ v, (key, v) ∈ l ∧ p = (key, f v) := by
  intro l
  induction l with
  | nil => intro p hp; simp [updA] at hp
  | cons q t ih =>
    obtain ⟨k, v⟩ := q
    intro p hp
    by_cases hk : k = key
    · subst hk
      rw [updA, if_pos rfl] at hp
      rcases List.mem_cons.mp hp with rfl | hp'
      · exact Or.inr ⟨v, List.mem_cons_self _ _, rfl⟩
      · exact Or.inl (List.mem_cons_of_mem _ hp')
    · rw [updA, if_neg hk] at hp
      rcases List.mem_cons.mp hp with rfl | hp'
      · exact Or.inl (List.mem_cons_self _ _)
      · rcases ih p hp' with hmem | ⟨w, hw, rfl⟩
        · exact Or.inl (List.mem_cons_of_mem _ hmem)
        · exact Or.inr ⟨w, List.mem_cons_of_mem _ hw, rfl⟩

theorem mem_updA_of_lookup {β : Type} (key : Nat) (f : β → β) :
    ∀ l : List (Nat × β), ∀ v, lookupA l key = some v →
      ∀ p ∈ updA key f l, p ∈ l ∨ p = (key, f v) := by
  intro l
  induction l with
  | nil => intro v hv; simp [lookupA] at hv
  | cons q t ih =>
    obtain ⟨k, w⟩ := q
    intro v hv p hp
    by_cases hk : k = key
    · subst hk
      rw [lookupA, if_pos rfl] at hv
      injection hv with hv
      subst hv
      rw [updA, if_pos rfl] at hp
      rcases List.mem_cons.mp hp with rfl | hp'
      · exact Or.inr rfl
      · exact Or.inl (List.mem_cons_of_mem _ hp')
    · rw [lookupA, if_neg hk] at hv
      rw [updA, if_neg hk] at hp
      rcases List.mem_cons.mp hp with rfl | hp'
      · exact Or.inl (List.mem_cons_self _ _)
      · rcases ih v hv p hp' with hmem | hpe
        · exact Or.inl (List.mem_cons_of_mem _ hmem)
        · exact Or.inr hpe

theorem nonneg_get (u : List (Nat × Acct)) (h : NonnegBal u) (uid : Nat) :
    0 ≤ (get_balances u uid).uwt ∧ 0 ≤ (get_balances u uid).rub := by
  unfold get_balances
  cases hv : lookupA u uid with
  | none => norm_num
  | some a => simpa using h (uid, a) (lookupA_mem uid a u hv)

theorem NonnegBal_add_uwt (u : List (Nat × Acct)) (uid : Nat) (d : Rat)
    (h : NonnegBal u) (hd : 0 ≤ (get_balances u uid).uwt + d) :
    NonnegBal (add_uwt u uid d) := by
  unfold add_uwt adjBal
  cases hv : lookupA u uid with
  | none =>
    intro p hp
    rcases List.mem_cons.mp hp with rfl | hp'
    · refine ⟨?_, by norm_num⟩
      simpa [get_balances, hv] using hd
    · exact h p hp'
  | some a =>
    intro p hp
    rcases mem_updA_of_lookup uid _ u a hv p hp with hmem | rfl
    · exact h p hmem
    · refine ⟨?_, (h (uid, a) (lookupA_mem uid a u hv)).2⟩
      have hga : (get_balances u uid).uwt = a.uwt := by simp [get_balances, hv]
      show 0 ≤ a.uwt + d
      rw [← hga]
      exact hd

theorem NonnegBal_add_rub (u : List (Nat × Acct)) (uid : Nat) (d : Rat)
    (h : NonnegBal u) (hd : 0 ≤ (get_balances u uid).rub + d) :
    NonnegBal (add_rub u uid d) := by
  unfold add_rub adjBal
  cases hv : lookupA u uid with
  | none =>
    intro p hp
    rcases List.mem_cons.mp hp with rfl | hp'
    · refine ⟨by norm_num, ?_⟩
      simpa [get_balances, hv] using hd
    · exact h p hp'
  | some a =>
    intro p hp
    rcases mem_updA_of_lookup uid _ u a hv p hp with hmem | rfl
    · exact h p hmem
    · refine ⟨(h (uid, a) (lookupA_mem uid a u hv)).1, ?_⟩
      have hga : (get_balances u uid).rub = a.rub := by simp [get_balances, hv]
      show 0 ≤ a.rub + d
      rw [← hga]
      exact hd

theorem NonnegBal_credit_uwt (u : List (Nat × Acct)) (uid : Nat) (d : Rat)
    (h : NonnegBal u) (hd : 0 ≤ d) : NonnegBal (add_uwt u uid d) :=
  NonnegBal_add_uwt u uid d h (add_nonneg (nonneg_get u h uid).1 hd)

theorem NonnegBal_credit_rub (u : List (Nat × Acct)) (uid : Nat) (d : Rat)
    (h : NonnegBal u) (hd : 0 ≤ d) : NonnegBal (add_rub u uid d) :=
  NonnegBal_add_rub u uid d h (add_nonneg (nonneg_get u h uid).2 hd)

theorem admin_adjust_ninv (s : WState) (uid : Nat) (asset : Asset) (delta : Rat)
    (h : NInv s) (hd : 0 ≤ delta) : NInv (admin_adjust s uid asset delta) := by
  obtain ⟨hu, hA, hr⟩ := h
  cases asset with
  | UWT => exact ⟨NonnegBal_credit_uwt _ _ _ hu hd, hA, hr⟩
  | RUB => exact ⟨NonnegBal_credit_rub _ _ _ hu hd, hA, hr⟩

theorem set_rate_ninv (s : WState) (r : Rat) (h : NInv s) : NInv (set_rate s r) := by
  unfold set_rate
  split
  · exact ⟨h.1, h.2.1, by assumption⟩
  · exact h

theorem create_check_ninv (s : WState) (cid creator : Nat) (amount : Rat)
    (ph : Option Nat) (h : NInv s) : NInv (create_check s cid creator amount ph) := by
  obtain ⟨hu, ⟨hc, hb, ho, hg⟩, hr⟩ := h
  unfold create_check
  split
  · exact ⟨hu, ⟨hc, hb, ho, hg⟩, hr⟩
  split
  · exact ⟨hu, ⟨hc, hb, ho, hg⟩, hr⟩
  rename_i h1 h2
  cases hl : lookupA s.checks cid with
  | some c => exact ⟨hu, ⟨hc, hb, ho, hg⟩, hr⟩
  | none =>
    refine ⟨NonnegBal_add_uwt _ _ _ hu (by linarith [not_lt.mp h2]), ⟨?_, hb, ho, hg⟩, hr⟩
    intro p hp
    rcases List.mem_cons.mp hp with rfl | hp'
    · show (0 : Rat) ≤ amount
      linarith [not_le.mp h1]
    · exact hc p hp'

theorem claim_check_ninv (s : WState) (cid claimer : Nat) (ph : Option Nat)
    (h : NInv s) : NInv (claim_check s cid claimer ph) := by
  obtain ⟨hu, ⟨hc, hb, ho, hg⟩, hr⟩ := h
  unfold claim_check
  cases hrow : lookupA s.checks cid with
  | none => exact ⟨hu, ⟨hc, hb, ho, hg⟩, hr⟩
  | some row =>
    simp only
    split
    · exact ⟨hu, ⟨hc, hb, ho, hg⟩, hr⟩
    split
    · refine ⟨?_, ⟨?_, hb, ho, hg⟩, hr⟩
      · exact NonnegBal_credit_uwt _ _ _ hu
          (by simpa using hc (cid, row) (lookupA_mem cid row s.checks hrow))
      · intro p hp
        rcases mem_updA cid _ s.checks p hp with hmem | ⟨v, hv, rfl⟩
        · exact hc p hmem
        · exact hc (cid, v) hv
    · exact ⟨hu, ⟨hc, hb, ho, hg⟩, hr⟩

theorem create_bill_ninv (s : WState) (bid creator : Nat) (amount : Rat)
    (h : NInv s) : NInv (create_bill s bid creator amount) := by
  obtain ⟨hu, ⟨hc, hb, ho, hg⟩, hr⟩ := h
  unfold create_bill
  split
  · exact ⟨hu, ⟨hc, hb, ho, hg⟩, hr⟩
  rename_i h1
  split
  · exact ⟨hu, ⟨hc, hb, ho, hg⟩, hr⟩
  refine ⟨hu, ⟨hc, ?_, ho, hg⟩, hr⟩
  intro p hp
  rcases List.mem_cons.mp hp with rfl | hp'
  · show (0 : Rat) ≤ amount
    linarith [not_le.mp h1]
  · exact hb p hp'

theorem pay_bill_ninv (s : WState) (bid payer : Nat) (h : NInv s) :
    NInv (pay_bill_uwt s bid payer).1 := by
  obtain ⟨hu, ⟨hc, hb, ho, hg⟩, hr⟩ := h
  unfold pay_bill_uwt
  cases hrow : lookupA s.bills bid with
  | none => exact ⟨hu, ⟨hc, hb, ho, hg⟩, hr⟩
  | some b =>
    simp only
    split
    · exact ⟨hu, ⟨hc, hb, ho, hg⟩, hr⟩
    split
    · exact ⟨hu, ⟨hc, hb, ho, hg⟩, hr⟩
    split
    · exact ⟨hu, ⟨hc, hb, ho, hg⟩, hr⟩
    rename_i h1 h2 h3
    have hbamt : (0 : Rat) ≤ b.amount := by
      simpa using hb (bid, b) (lookupA_mem bid b s.bills hrow)
    refine ⟨?_, ⟨hc, ?_, ho, hg⟩, hr⟩
    · refine NonnegBal_credit_uwt _ _ _ ?_ hbamt
      exact NonnegBal_add_uwt _ _ _ hu (by linarith [not_lt.mp h3])
    · intro p hp
      rcases mem_updA bid _ s.bills p hp with hmem | ⟨v, hv, rfl⟩
      · exact hb p hmem
      · exact hb (bid, v) hv

theorem exchange_buy_ninv (s : WState) (uid : Nat) (rubSpend : Rat)
    (h : NInv s) : NInv (exchange_buy_uwt s uid rubSpend) := by
  obtain ⟨hu, hA, hr⟩ := h
  unfold exchange_buy_uwt
  split
  · exact ⟨hu, hA, hr⟩
  rename_i h1
  split
  · exact ⟨hu, hA, hr⟩
  rename_i h2
  refine ⟨?_, hA, hr⟩
  refine NonnegBal_credit_uwt _ _ _ ?_ ?_
  · exact NonnegBal_add_rub _ _ _ hu (by linarith [not_lt.mp h2])
  · exact div_nonneg (by linarith [not_le.mp h1]) (le_of_lt hr)

theorem exchange_sell_ninv (s : WState) (uid : Nat) (uwtSell : Rat)
    (h : NInv s) : NInv (exchange_sell_uwt s uid uwtSell) := by
  obtain ⟨hu, hA, hr⟩ := h
  unfold exchange_sell_uwt
  split
  · exact ⟨hu, hA, hr⟩
  rename_i h1
  split
  · exact ⟨hu, hA, hr⟩
  rename_i h2
  refine ⟨?_, hA, hr⟩
  refine NonnegBal_credit_rub _ _ _ ?_ ?_
  · exact NonnegBal_add_uwt _ _ _ hu (by linarith [not_lt.mp h2])
  · exact mul_nonneg (by linarith [not_le.mp h1]) (le_of_lt hr)

theorem cancel_order_ninv (s : WState) (oid uid : Nat) (h : NInv s) :
    NInv (cancel_order s oid uid) := by
  obtain ⟨hu, ⟨hc, hb, ho, hg⟩, hr⟩ := h
  unfold cancel_order
  cases hrow : lookupA s.orders oid with
  | none => exact ⟨hu, ⟨hc, hb, ho, hg⟩, hr⟩
  | some o =>
    simp only
    split
    · exact ⟨hu, ⟨hc, hb, ho, hg⟩, hr⟩
    split
    · exact ⟨hu, ⟨hc, hb, ho, hg⟩, hr⟩
    have hoamt := ho (oid, o) (lookupA_mem oid o s.orders hrow)
    refine ⟨?_, ⟨hc, hb, ?_, hg⟩, hr⟩
    · cases hside : o.side with
      | buy =>
        simp only
        exact NonnegBal_credit_rub _ _ _ hu (mul_nonneg hoamt.1 hoamt.2)
      | sell =>
        simp only
        exact NonnegBal_credit_uwt _ _ _ hu hoamt.2
    · intro p hp
      rcases mem_updA oid _ s.orders p hp with hmem | ⟨v, hv, rfl⟩
      · exact ho p hmem
      · exact ho (oid, v) hv

theorem create_giveaway_ninv (s : WState) (gid creator : Nat) (amount : Rat)
    (minutes now : Int) (h : NInv s) :
    NInv (create_giveaway s gid creator amount minutes now) := by
  obtain ⟨hu, ⟨hc, hb, ho, hg⟩, hr⟩ := h
  unfold create_giveaway
  split
  · exact ⟨hu, ⟨hc, hb, ho, hg⟩, hr⟩
  rename_i h1
  split
  · exact ⟨hu, ⟨hc, hb, ho, hg⟩, hr⟩
  split
  · exact ⟨hu, ⟨hc, hb, ho, hg⟩, hr⟩
  rename_i h2 h3
  cases hl : lookupA s.giveaways gid with
  | some g => exact ⟨hu, ⟨hc, hb, ho, hg⟩, hr⟩
  | none =>
    refine ⟨NonnegBal_add_uwt _ _ _ hu (by linarith [not_lt.mp h3]),
      ⟨hc, hb, ho, ?_⟩, hr⟩
    intro p hp
    rcases List.mem_cons.mp hp with rfl | hp'
    · show (0 : Rat) ≤ amount
      linarith [not_le.mp h1]
    · exact hg p hp'

theorem join_giveaway_ninv (s : WState) (gid uid : Nat) (h : NInv s) :
    NInv (join_giveaway s gid uid) := by
  obtain ⟨hu, ⟨hc, hb, ho, hg⟩, hr⟩ := h
  unfold join_giveaway
  cases hl : lookupA s.giveaways gid with
  | none => exact ⟨hu, ⟨hc, hb, ho, hg⟩, hr⟩
  | some g =>
    simp only
    split
    · exact ⟨hu, ⟨hc, hb, ho, hg⟩, hr⟩
    split
    · exact ⟨hu, ⟨hc, hb, ho, hg⟩, hr⟩
    · exact ⟨hu, ⟨hc, hb, ho, hg⟩, hr⟩

theorem channel_sub_buy_ninv (s : WState) (buyer owner : Nat) (price : Rat)
    (months : Int) (h : NInv s) (hp : 0 ≤ price) :
    NInv (channel_sub_buy s buyer owner price months) := by
  obtain ⟨hu, hA, hr⟩ := h
  have key : ∀ m : Int, 0 < m →
      NInv (if (get_balances s.users buyer).uwt < price * (m : Rat) then s
        else { s with users := add_uwt (add_uwt s.users buyer (-(price * (m : Rat)))) owner (price * (m : Rat)) }) := by
    intro m hm
    split
    · exact ⟨hu, hA, hr⟩
    rename_i h2
    refine ⟨?_, hA, hr⟩
    refine NonnegBal_credit_uwt _ _ _ ?_
      (mul_nonneg hp (by exact_mod_cast le_of_lt hm))
    exact NonnegBal_add_uwt _ _ _ hu (by linarith [not_lt.mp h2])
  unfold channel_sub_buy
  split
  · exact ⟨hu, hA, hr⟩
  rename_i h1
  dsimp only
  by_cases h120 : (120 : Int) < months
  · rw [if_pos h120]
    exact key 120 (by norm_num)
  · rw [if_neg h120]
    exact key months (by omega)

theorem do_trade_ninv (s : WState) (bk : Nat) (b : MOrder) (sk : Nat)
    (so : MOrder) (h : NInv s) (hb : 0 ≤ b.price ∧ 0 ≤ b.amount)
    (hs : 0 ≤ so.price ∧ 0 ≤ so.amount) : NInv (do_trade s bk b sk so) := by
  obtain ⟨hu, ⟨hc, hbl, ho, hg⟩, hr⟩ := h
  have htAmt : (0 : Rat) ≤ min b.amount so.amount := le_min hb.2 hs.2
  have heps : (0 : Rat) < eps := by norm_num [eps]
  unfold do_trade
  dsimp only
  refine ⟨?_, ⟨hc, hbl, ?_, hg⟩, hr⟩
  · have hu2 : NonnegBal (add_rub (add_uwt s.users b.user (min b.amount so.amount))
        so.user (min b.amount so.amount * so.price)) :=
      NonnegBal_credit_rub _ _ _ (NonnegBal_credit_uwt _ _ _ hu htAmt)
        (mul_nonneg htAmt hs.1)
    split
    · rename_i hrf
      exact NonnegBal_credit_rub _ _ _ hu2 (le_of_lt (lt_trans heps hrf))
    · exact hu2
  · intro p hp
    rcases mem_updA sk _ _ p hp with hp1 | ⟨v, hv, rfl⟩
    · rcases mem_updA bk _ s.orders p hp1 with hp2 | ⟨w, hw, rfl⟩
      · exact ho p hp2
      · dsimp only
        split
        · exact ⟨hb.1, by norm_num⟩
        · exact ⟨hb.1, sub_nonneg.mpr (min_le_left _ _)⟩
    · dsimp only
      split
      · exact ⟨hs.1, by norm_num⟩
      · exact ⟨hs.1, sub_nonneg.mpr (min_le_right _ _)⟩

theorem match_step_ninv (s s' : WState) (hstep : match_step s = some s')
    (h : NInv s) : NInv s' := by
  unfold match_step at hstep
  cases hbk : bestBuyKey s.orders with
  | none => rw [hbk] at hstep; exact absurd hstep (by simp)
  | some p =>
    cases hsk : bestSellKey s.orders with
    | none => rw [hbk, hsk] at hstep; exact absurd hstep (by simp)
    | some q =>
      obtain ⟨bk, bv⟩ := p
      obtain ⟨sk, sv⟩ := q
      rw [hbk, hsk] at hstep
      simp only at hstep
      cases hlb : lookupA s.orders bk with
      | none => rw [hlb] at hstep; exact absurd hstep (by simp)
      | some b =>
        cases hls : lookupA s.orders sk with
        | none => rw [hlb, hls] at hstep; exact absurd hstep (by simp)
        | some so =>
          rw [hlb, hls] at hstep
          simp only at hstep
          split at hstep
          · split at hstep
            · exact absurd hstep (by simp)
            · have := Option.some.inj hstep
              rw [← this]
              exact do_trade_ninv s bk b sk so h
                (h.2.1.2.2.1 (bk, b) (lookupA_mem bk b s.orders hlb))
                (h.2.1.2.2.1 (sk, so) (lookupA_mem sk so s.orders hls))
          · exact absurd hstep (by simp)

theorem match_loop_ninv (fuel : Nat) :
    ∀ s : WState, NInv s → NInv (match_loop fuel s) := by
  induction fuel with
  | zero => intro s h; exact h
  | succ n ih =>
    intro s h
    rw [match_loop_succ]
    cases hstep : match_step s with
    | none => exact h
    | some s' => exact ih s' (match_step_ninv s s' hstep h)

theorem place_order_ninv (s : WState) (oid uid : Nat) (side : Side)
    (price amt : Rat) (now : Nat) (h : NInv s) :
    NInv (place_order s oid uid side price amt now) := by
  obtain ⟨hu, ⟨hc, hb, ho, hg⟩, hr⟩ := h
  unfold place_order
  split
  · exact ⟨hu, ⟨hc, hb, ho, hg⟩, hr⟩
  rename_i hv
  have hpa : 0 ≤ price ∧ 0 ≤ amt := by
    push_neg at hv
    exact ⟨le_of_lt hv.1, le_of_lt hv.2⟩
  cases hl : lookupA s.orders oid with
  | some o => exact ⟨hu, ⟨hc, hb, ho, hg⟩, hr⟩
  | none =>
    cases side with
    | buy =>
      dsimp only
      split
      · exact ⟨hu, ⟨hc, hb, ho, hg⟩, hr⟩
      rename_i hbal
      apply match_loop_ninv
      refine ⟨NonnegBal_add_rub _ _ _ hu (by linarith [not_lt.mp hbal]),
        ⟨hc, hb, ?_, hg⟩, hr⟩
      intro p hp
      rcases List.mem_append.mp hp with hp' | hp'
      · exact ho p hp'
      · rcases List.mem_singleton.mp hp' with rfl
        exact hpa
    | sell =>
      dsimp only
      split
      · exact ⟨hu, ⟨hc, hb, ho, hg⟩, hr⟩
      rename_i hbal
      apply match_loop_ninv
      refine ⟨NonnegBal_add_uwt _ _ _ hu (by linarith [not_lt.mp hbal]),
        ⟨hc, hb, ?_, hg⟩, hr⟩
      intro p hp
      rcases List.mem_append.mp hp with hp' | hp'
      · exact ho p hp'
      · rcases List.mem_singleton.mp hp' with rfl
        exact hpa

theorem finalize_fold_ninv (now : Int) (pick : List Nat → Nat) :
    ∀ rows : List (Nat × MGiveaway), ∀ st : WState × List GEvent,
      (∀ r ∈ rows, 0 ≤ r.2.amount) → NInv st.1 →
      NInv (rows.foldl (finalize_one now pick) st).1 := by
  intro rows
  induction rows with
  | nil => intro st _ h; exact h
  | cons row t ih =>
    intro st hrows h
    rw [List.foldl_cons]
    refine ih _ (fun r hr => hrows r (List.mem_cons_of_mem _ hr)) ?_
    obtain ⟨hu, ⟨hc, hb, ho, hg⟩, hr⟩ := h
    unfold finalize_one
    cases row.2.endAt with
    | none => exact ⟨hu, ⟨hc, hb, ho, hg⟩, hr⟩
    | some t' =>
      dsimp only
      split
      · exact ⟨hu, ⟨hc, hb, ho, hg⟩, hr⟩
      unfold finalize_apply
      refine ⟨NonnegBal_credit_uwt _ _ _ hu
        (hrows row (List.mem_cons_self _ _)), ⟨hc, hb, ho, ?_⟩, hr⟩
      intro p hp
      rcases mem_updA row.1 _ st.1.giveaways p hp with hmem | ⟨v, hv, rfl⟩
      · exact hg p hmem
      · exact hg (row.1, v) hv

theorem sweep_ninv (now : Int) (pick : List Nat → Nat) (s : WState)
    (h : NInv s) : NInv (finish_due_giveaways now pick s).1 := by
  unfold finish_due_giveaways
  refine finalize_fold_ninv now pick _ (s, []) ?_ h
  intro r hr
  exact h.2.1.2.2.2 r (List.mem_of_mem_filter hr)

theorem step_ninv (op : Op) (s : WState) (h : NInv s) (hsafe : OpSafe op) :
    NInv (step op s) := by
  cases op with
  | admin_adjust uid asset delta =>
    exact admin_adjust_ninv s uid asset delta h hsafe
  | set_rate r => exact set_rate_ninv s r h
  | create_check cid creator amount ph => exact create_check_ninv s cid creator amount ph h
  | claim_check cid claimer ph => exact claim_check_ninv s cid claimer ph h
  | create_bill bid creator amount => exact create_bill_ninv s bid creator amount h
  | pay_bill bid payer => exact pay_bill_ninv s bid payer h
  | exchange_buy uid rubSpend => exact exchange_buy_ninv s uid rubSpend h
  | exchange_sell uid uwtSell => exact exchange_sell_ninv s uid uwtSell h
  | place oid uid side price amt now => exact place_order_ninv s oid uid side price amt now h
  | cancel oid uid => exact cancel_order_ninv s oid uid h
  | create_gw gid creator amount minutes now =>
    exact create_giveaway_ninv s gid creator amount minutes now h
  | join_gw gid uid => exact join_giveaway_ninv s gid uid h
  | sweep now pick => exact sweep_ninv now pick s h
  | channel_buy buyer owner price months =>
    exact channel_sub_buy_ninv s buyer owner price months h hsafe

theorem initState_ninv : NInv initState := by
  refine ⟨?_, ⟨?_, ?_, ?_, ?_⟩, ?_⟩ <;> first
    | (intro p hp; simp [initState] at hp)
    | norm_num [initState]

theorem runOps_ninv (ops : List Op) (h : ∀ op ∈ ops, OpSafe op) :
    NInv (runOps ops) := by
  unfold runOps
  have aux : ∀ l : List Op, ∀ s : WState, NInv s → (∀ op ∈ l, OpSafe op) →
      NInv (l.foldl (fun s op => step op s) s) := by
    intro l
    induction l with
    | nil => intro s hs _; exact hs
    | cons op t ih =>
      intro s hs hl
      rw [List.foldl_cons]
      exact ih _ (step_ninv op s hs (hl op (List.mem_cons_self _ _)))
        (fun o ho => hl o (List.mem_cons_of_mem _ ho))
  exact aux ops initState initState_ninv h

/-- C8, counterexample: the admin balance-adjustment pass-through
(`adm_bal_amount` → `add_asset`, src/main.py:1917-1942, 329-344) applies a
negative delta without any balance check, so a single committed operation
drives an account's UWT balance to −5 < 0 on a reachable state. -/
theorem c8_nonneg_counterexample :
    Reachable (runOps [Op.admin_adjust 7 Asset.UWT (-5)]) ∧
      uwtOf (runOps [Op.admin_adjust 7 Asset.UWT (-5)]).users 7 < 0 := by
  refine ⟨⟨_, rfl⟩, ?_⟩
  show uwtOf (admin_adjust initState 7 .UWT (-5)).users 7 < 0
  norm_num [admin_adjust, add_uwt, adjBal, lookupA, initState, uwtOf, get_balances]

/-- C8, amended: after every committed sequence of core operations, every
account's balance in each asset is non-negative, PROVIDED the two inputs
the code never validates are themselves non-negative: the admin
balance-adjustment delta (`add_asset` applies any sign) and the channel
price handed to the subscription purchase (validated as positive at channel
registration, outside the modelled operations).  All other operations guard
their debits (`balance < amount` fails the transaction) and validate
created amounts as positive, which is exactly what the inductive proof
uses. -/
theorem c8_nonneg_balances_amended (ops : List Op)
    (h : ∀ op ∈ ops, OpSafe op) (uid : Nat) :
    0 ≤ uwtOf (runOps ops).users uid ∧ 0 ≤ rubOf (runOps ops).users uid := by
  have hinv := runOps_ninv ops h
  exact nonneg_get _ hinv.1 uid

/-- Witness for the amended C8 at a concrete safe trace: a mint, a voucher
round-trip, a bill payment, an exchange and a resting order. -/
theorem c8_nonneg_balances_amended_witness :
    (∀ op ∈ ([Op.admin_adjust 1 Asset.UWT 50, Op.admin_adjust 2 Asset.RUB 40,
        Op.create_check 5 1 20 none, Op.claim_check 5 2 none,
        Op.exchange_buy 2 30, Op.place 9 2 Side.sell 10 2 0] : List Op), OpSafe op) ∧
      (0 ≤ uwtOf (runOps [Op.admin_adjust 1 Asset.UWT 50, Op.admin_adjust 2 Asset.RUB 40,
          Op.create_check 5 1 20 none, Op.claim_check 5 2 none,
          Op.exchange_buy 2 30, Op.place 9 2 Side.sell 10 2 0]).users 2 ∧
        0 ≤ rubOf (runOps [Op.admin_adjust 1 Asset.UWT 50, Op.admin_adjust 2 Asset.RUB 40,
          Op.create_check 5 1 20 none, Op.claim_check 5 2 none,
          Op.exchange_buy 2 30, Op.place 9 2 Side.sell 10 2 0]).users 2) := by
  have hs : ∀ op ∈ ([Op.admin_adjust 1 Asset.UWT 50, Op.admin_adjust 2 Asset.RUB 40,
      Op.create_check 5 1 20 none, Op.claim_check 5 2 none,
      Op.exchange_buy 2 30, Op.place 9 2 Side.sell 10 2 0] : List Op), OpSafe op := by
    intro op hop
    simp only [List.mem_cons, List.not_mem_nil, or_false] at hop
    rcases hop with rfl | rfl | rfl | rfl | rfl | rfl
    · show (0 : Rat) ≤ 50
      norm_num
    · show (0 : Rat) ≤ 40
      norm_num
    · exact trivial
    · exact trivial
    · exact trivial
    · exact trivial
  exact ⟨hs, c8_nonneg_balances_amended _ hs 2⟩

end UWallet
